import Mathlib

set_option maxRecDepth 20000
set_option linter.unusedVariables false

/- Verification development for the two serial chess engines of this repository,
   super-engine/src/serial-engine.cpp (+ .h) and prune-engine/src/serial-engine.cpp (+ .h).

   The chess-rules library (thc) is external to the repository: the engines use it only
   through legal-move generation, the push/pop pair, draw and terminal detection, and
   direct reads of the board squares and flags.  Those operations are modelled as an
   abstract `Rules` interface over a concrete board-state record `Pos`; everything else
   is translated from the two source files.

   Scores: the engines use C++ float for scores, but every value that reaches a search
   score is integral (material, table entries, mate scores, zeros), so search scores are
   modelled as `Int` and the `(int)` cast at the TT store is the identity.  Move-ordering
   scores genuinely use fractions (piece-square delta / 100) and are modelled as exact
   rationals.  Wall-clock time is modelled by an oracle `clock : Nat -> Bool` giving the
   outcome of the n-th elapsed-time comparison. -/

namespace Engine

/-- Model of the thc special-move tag.  The engine only distinguishes the four
promotion tags, which are contiguous in the thc enum and tested there with a
range comparison; all other kinds behave alike in the engine code. -/
inductive SpecialTag where
  | simple
  | promoQueen
  | promoRook
  | promoBishop
  | promoKnight
  | castleKing
  | castleQueen
  | enPassant
deriving DecidableEq

/-- Range test `move.special >= SPECIAL_PROMOTION_QUEEN && move.special <=
SPECIAL_PROMOTION_KNIGHT` from score_move. -/
def SpecialTag.isPromotion : SpecialTag → Bool
  | .promoQueen | .promoRook | .promoBishop | .promoKnight => true
  | _ => false

/-- Model of thc::Move: source and destination square indices (0..63 in all engine
uses), the captured piece character (space when the move is not a capture) and the
special tag.  Moves compare by value. -/
structure Move where
  src : Nat
  dst : Nat
  capture : Char
  special : SpecialTag
deriving DecidableEq

/-- Model of thc::Move() / Move.Invalid(): the null-move sentinel. -/
def invalidMove : Move := ⟨0, 0, ' ', SpecialTag.simple⟩

/-- Model of the part of thc::ChessRules state that the engine reads directly: the
board of piece characters (indices 0..63; uppercase = white, lowercase = black,
space = empty), side to move, the four castling-rights booleans and the en-passant
target square (`none` for SQUARE_INVALID). -/
structure Pos where
  squares : Nat → Char
  whiteToPlay : Bool
  wking : Bool
  wqueen : Bool
  bking : Bool
  bqueen : Bool
  enpassantTarget : Option Nat

/-- Terminal status returned by thc's Evaluate; `notTerminal` also covers the case
in which Evaluate returns false. -/
inductive TerminalKind where
  | notTerminal
  | wcheckmate
  | bcheckmate
  | wstalemate
  | bstalemate
deriving DecidableEq

/-- The external chess-rules operations used by the engines (the thc library is out
of scope of the repository).  The engines are verified for an arbitrary instance. -/
structure Rules where
  legalMoves : Pos → List Move
  push : Pos → Move → Pos
  pop : Pos → Move → Pos
  isDraw : Pos → Bool
  terminal : Pos → TerminalKind

/-- INF_SCORE = 1000000.0f from serial-engine.h (both engines). -/
def INF_SCORE : Int := 1000000

/-- INF_SCORE as a move-ordering score (ordering scores are C++ floats, modelled as
exact rationals). -/
def INF_SCORE_Q : Rat := 1000000

/-! Piece-square tables from serial-engine.cpp (textually identical in both
engines). -/

/-- pawn_table from serial-engine.cpp. -/
def pawn_table : List Int :=
  [ 0,  0,  0,  0,  0,  0,  0,  0,
   50, 50, 50, 50, 50, 50, 50, 50,
   10, 10, 20, 30, 30, 20, 10, 10,
    5,  5, 10, 25, 25, 10,  5,  5,
    0,  0,  0, 20, 20,  0,  0,  0,
    5, -5,-10,  0,  0,-10, -5,  5,
    5, 10, 10,-20,-20, 10, 10,  5,
    0,  0,  0,  0,  0,  0,  0,  0]

/-- knight_table from serial-engine.cpp. -/
def knight_table : List Int :=
  [-50,-40,-30,-30,-30,-30,-40,-50,
   -40,-20,  0,  0,  0,  0,-20,-40,
   -30,  0, 10, 15, 15, 10,  0,-30,
   -30,  5, 15, 20, 20, 15,  5,-30,
   -30,  0, 15, 20, 20, 15,  0,-30,
   -30,  5, 10, 15, 15, 10,  5,-30,
   -40,-20,  0,  5,  5,  0,-20,-40,
   -50,-40,-30,-30,-30,-30,-40,-50]

/-- bishop_table from serial-engine.cpp. -/
def bishop_table : List Int :=
  [-20,-10,-10,-10,-10,-10,-10,-20,
   -10,  0,  0,  0,  0,  0,  0,-10,
   -10,  0,  5, 10, 10,  5,  0,-10,
   -10,  5,  5, 10, 10,  5,  5,-10,
   -10,  0, 10, 10, 10, 10,  0,-10,
   -10, 10, 10, 10, 10, 10, 10,-10,
   -10,  5,  0,  0,  0,  0,  5,-10,
   -20,-10,-10,-10,-10,-10,-10,-20]

/-- rook_table from serial-engine.cpp. -/
def rook_table : List Int :=
  [ 0,  0,  0,  0,  0,  0,  0,  0,
    5, 10, 10, 10, 10, 10, 10,  5,
   -5,  0,  0,  0,  0,  0,  0, -5,
   -5,  0,  0,  0,  0,  0,  0, -5,
   -5,  0,  0,  0,  0,  0,  0, -5,
   -5,  0,  0,  0,  0,  0,  0, -5,
   -5,  0,  0,  0,  0,  0,  0, -5,
    0,  0,  0,  5,  5,  0,  0,  0]

/-- queen_table from serial-engine.cpp. -/
def queen_table : List Int :=
  [-20,-10,-10, -5, -5,-10,-10,-20,
   -10,  0,  0,  0,  0,  0,  0,-10,
   -10,  0,  5,  5,  5,  5,  0,-10,
    -5,  0,  5,  5,  5,  5,  0, -5,
     0,  0,  5,  5,  5,  5,  0, -5,
   -10,  5,  5,  5,  5,  5,  0,-10,
   -10,  0,  5,  0,  0,  0,  0,-10,
   -20,-10,-10, -5, -5,-10,-10,-20]

/-- king_table from serial-engine.cpp. -/
def king_table : List Int :=
  [-30,-40,-40,-50,-50,-40,-40,-30,
   -30,-40,-40,-50,-50,-40,-40,-30,
   -30,-40,-40,-50,-50,-40,-40,-30,
   -30,-40,-40,-50,-50,-40,-40,-30,
   -20,-30,-30,-40,-40,-30,-30,-20,
   -10,-20,-20,-20,-20,-20,-20,-10,
    20, 20,  0,  0,  0,  0, 20, 20,
    20, 30, 10,  0,  0, 10, 30, 20]

/-- Table lookup; every engine access is at an index in 0..63. -/
def tAt (t : List Int) (i : Nat) : Int := t.getD i 0

/-- Capture-bonus switch of score_move (the guard `move.capture != ' '` is
subsumed by the default case). -/
def captureBonus (c : Char) : Rat :=
  match c.toLower with
  | 'p' => 1
  | 'n' => 3
  | 'b' => 3
  | 'r' => 5
  | 'q' => 9
  | 'k' => 1000
  | _ => 0

/-- White-piece switch of the positional-gain part of score_move. -/
def positionalGainWhite (piece : Char) (from_index to_index : Nat) : Rat :=
  match piece with
  | 'P' => ((tAt pawn_table to_index - tAt pawn_table from_index : Int) : Rat) / 100
  | 'N' => ((tAt knight_table to_index - tAt knight_table from_index : Int) : Rat) / 100
  | 'B' => ((tAt bishop_table to_index - tAt bishop_table from_index : Int) : Rat) / 100
  | 'R' => ((tAt rook_table to_index - tAt rook_table from_index : Int) : Rat) / 100
  | 'Q' => ((tAt queen_table to_index - tAt queen_table from_index : Int) : Rat) / 100
  | 'K' => ((tAt king_table to_index - tAt king_table from_index : Int) : Rat) / 100
  | _ => 0

/-- Black-piece switch of the positional-gain part of score_move (indices are
already mirrored by the caller). -/
def positionalGainBlack (piece : Char) (flipped_from_index flipped_to_index : Nat) : Rat :=
  match piece with
  | 'p' => ((tAt pawn_table flipped_to_index - tAt pawn_table flipped_from_index : Int) : Rat) / 100
  | 'n' => ((tAt knight_table flipped_to_index - tAt knight_table flipped_from_index : Int) : Rat) / 100
  | 'b' => ((tAt bishop_table flipped_to_index - tAt bishop_table flipped_from_index : Int) : Rat) / 100
  | 'r' => ((tAt rook_table flipped_to_index - tAt rook_table flipped_from_index : Int) : Rat) / 100
  | 'q' => ((tAt queen_table flipped_to_index - tAt queen_table flipped_from_index : Int) : Rat) / 100
  | 'k' => ((tAt king_table flipped_to_index - tAt king_table flipped_from_index : Int) : Rat) / 100
  | _ => 0

/-- score_move from serial-engine.cpp (textually identical in both engines):
capture bonus by captured piece, +9 for the four promotions, and the piece-square
delta of the moving piece divided by 100 (board mirrored for black pieces). -/
def score_move (move : Move) (cr : Pos) : Rat :=
  let s1 : Rat := captureBonus move.capture
  let s2 : Rat := if move.special.isPromotion then s1 + 9 else s1
  let from_index := move.src
  let to_index := move.dst
  let piece := cr.squares from_index
  if piece.isUpper then s2 + positionalGainWhite piece from_index to_index
  else s2 + positionalGainBlack piece (63 - from_index) (63 - to_index)

/-- evaluate_mobility from serial-engine.cpp: generates the legal moves of the
position (on a copy, hence the same position) and adds weights for moves whose
source piece belongs to the requested side.  The piece_indices argument exists in
the source but is never read. -/
def evaluate_mobility (R : Rules) (cr : Pos) (is_white : Bool)
    (piece_indices : List Nat) : Int :=
  (R.legalMoves cr).foldl
    (fun mobility_score move =>
      let piece := cr.squares move.src
      if (is_white ∧ piece.isUpper) ∨ (¬ is_white ∧ piece.isLower) then
        match piece.toLower with
        | 'n' => mobility_score + 4
        | 'b' => mobility_score + 4
        | 'r' => mobility_score + 2
        | 'q' => mobility_score + 1
        | _ => mobility_score
      else mobility_score) 0

/-- The file_counts array of evaluate_pawn_structure: number of pawns per file. -/
def file_counts (pawn_files : List Nat) (i : Nat) : Nat := pawn_files.count i

/-- One step of the first loop of evaluate_pawn_structure (doubled-pawn penalty and
island counting), with state (score, pawn_islands, in_island). -/
def epsStep (c : Nat → Nat) (acc : Int × Nat × Bool) (i : Nat) : Int × Nat × Bool :=
  let score := acc.1
  let pawn_islands := acc.2.1
  let in_island := acc.2.2
  if 0 < c i then
    ((if 1 < c i then score - 10 * ((c i : Int) - 1) else score),
     (if in_island then pawn_islands else pawn_islands + 1),
     true)
  else (score, pawn_islands, false)

/-- Isolated-pawn test of evaluate_pawn_structure at file i. -/
def isolatedAt (c : Nat → Nat) (i : Nat) : Bool :=
  if 0 < c i then
    if (0 < i ∧ 0 < c (i - 1)) ∨ (i < 7 ∧ 0 < c (i + 1)) then false else true
  else false

/-- evaluate_pawn_structure from serial-engine.cpp (textually identical in both
engines).  The is_white parameter exists in the source but is never read. -/
def evaluate_pawn_structure (pawn_files : List Nat) (is_white : Bool) : Int :=
  let c := file_counts pawn_files
  let firstLoop := (List.range 8).foldl (epsStep c) ((0 : Int), (0 : Nat), false)
  let score1 := firstLoop.1 - 5 * ((firstLoop.2.1 : Int) - 1)
  (List.range 8).foldl (fun score i => if isolatedAt c i then score - 15 else score) score1

/-- evaluate_king_safety from serial-engine.cpp.  king_index is the C++ int, -1
when the king was not found. -/
def evaluate_king_safety (cr : Pos) (king_index : Int) (is_white endgame : Bool) : Int :=
  if king_index = -1 then 0
  else if endgame then 0
  else
    let rank := Int.tdiv king_index 8
    let file := Int.tmod king_index 8
    let direction : Int := if is_white then -1 else 1
    let pawn_shield_bonus :=
      ([-1, 0, 1] : List Int).foldl
        (fun b df =>
          let shield_rank := rank + direction
          let shield_file := file + df
          if 0 ≤ shield_rank ∧ shield_rank ≤ 7 ∧ 0 ≤ shield_file ∧ shield_file ≤ 7 then
            let shield_piece := cr.squares (shield_rank * 8 + shield_file).toNat
            if (is_white ∧ shield_piece = 'P') ∨ (¬ is_white ∧ shield_piece = 'p') then b + 10
            else b
          else b) (0 : Int)
    if pawn_shield_bonus = 0 then pawn_shield_bonus - 20 else pawn_shield_bonus

/-- evaluate_king_activity from serial-engine.cpp.  The float arithmetic there is
exact: |rank - 3.5| + |file - 3.5| is an integer (each term has fractional part
one half), so distance_to_center * 5 equals the integer 5 * (|2 rank - 7| +
|2 file - 7|) / 2 and the static_cast of it to int is the identity.  Division
and remainder on the possibly negative king indices use the C truncated
semantics, i.e. Int.tdiv / Int.tmod. -/
def evaluate_king_activity (own_king_index opponent_king_index : Int)
    (is_white : Bool) : Int :=
  let rank := Int.tdiv own_king_index 8
  let file := Int.tmod own_king_index 8
  let d2 : Int := ((2 * rank - 7).natAbs : Int) + ((2 * file - 7).natAbs : Int)
  let a1 : Int := 0 - Int.tdiv (5 * d2) 2
  let opponent_rank := Int.tdiv opponent_king_index 8
  let opponent_file := Int.tmod opponent_king_index 8
  let king_distance : Int :=
    ((rank - opponent_rank).natAbs : Int) + ((file - opponent_file).natAbs : Int)
  let a2 := if is_white then a1 - king_distance * 2 else a1 + king_distance * 2
  a2 + 20

/-- ENDGAME_MATERIAL_THRESHOLD from serial-engine.cpp. -/
def ENDGAME_MATERIAL_THRESHOLD : Int := 2400

/-- is_endgame from serial-engine.cpp. -/
def is_endgame (white_material black_material : Int) : Bool :=
  decide (white_material + black_material ≤ ENDGAME_MATERIAL_THRESHOLD)

/-- Accumulator of the per-square loop of static_eval.  The piece-index vectors of
the source are omitted: they are passed to evaluate_mobility but never read. -/
structure EvalAcc where
  total : Int
  white_material : Int
  black_material : Int
  white_bishops : Nat
  black_bishops : Nat
  white_king_index : Int
  black_king_index : Int
  white_pawn_files : List Nat
  black_pawn_files : List Nat

/-- Initial accumulator of static_eval's per-square loop. -/
def initAcc : EvalAcc := ⟨0, 0, 0, 0, 0, -1, -1, [], []⟩

/-- One square of static_eval's material-and-position loop. -/
def evalSquare (acc : EvalAcc) (i : Nat) (piece : Char) : EvalAcc :=
  if piece = ' ' then acc
  else
    let flipped_index := 63 - i
    let is_white := piece.isUpper
    let idx := if is_white then i else flipped_index
    match piece.toLower with
    | 'p' =>
      let sq := 100 + tAt pawn_table idx
      if is_white then
        { acc with total := acc.total + sq, white_material := acc.white_material + 100,
                   white_pawn_files := acc.white_pawn_files ++ [i % 8] }
      else
        { acc with total := acc.total - sq, black_material := acc.black_material + 100,
                   black_pawn_files := acc.black_pawn_files ++ [i % 8] }
    | 'n' =>
      let sq := 320 + tAt knight_table idx
      if is_white then
        { acc with total := acc.total + sq, white_material := acc.white_material + 320 }
      else
        { acc with total := acc.total - sq, black_material := acc.black_material + 320 }
    | 'b' =>
      let sq := 330 + tAt bishop_table idx
      if is_white then
        { acc with total := acc.total + sq, white_material := acc.white_material + 330,
                   white_bishops := acc.white_bishops + 1 }
      else
        { acc with total := acc.total - sq, black_material := acc.black_material + 330,
                   black_bishops := acc.black_bishops + 1 }
    | 'r' =>
      let sq := 500 + tAt rook_table idx
      if is_white then
        { acc with total := acc.total + sq, white_material := acc.white_material + 500 }
      else
        { acc with total := acc.total - sq, black_material := acc.black_material + 500 }
    | 'q' =>
      let sq := 900 + tAt queen_table idx
      if is_white then
        { acc with total := acc.total + sq, white_material := acc.white_material + 900 }
      else
        { acc with total := acc.total - sq, black_material := acc.black_material + 900 }
    | 'k' =>
      let sq := 20000 + tAt king_table idx
      if is_white then
        { acc with total := acc.total + sq, white_king_index := (i : Int) }
      else
        { acc with total := acc.total - sq, black_king_index := (i : Int) }
    | _ => acc

/-- static_eval from serial-engine.cpp (textually identical in both engines):
material and piece-square sums, bishop pair, mobility, pawn structure, king
safety, and (in the endgame) king activity, always from White's point of view. -/
def static_eval (R : Rules) (cr : Pos) : Int :=
  let acc := (List.range 64).foldl (fun a i => evalSquare a i (cr.squares i)) initAcc
  let t1 := acc.total + (if 2 ≤ acc.white_bishops then 50 else 0)
                      - (if 2 ≤ acc.black_bishops then 50 else 0)
  let t2 := t1 + evaluate_mobility R cr true [] - evaluate_mobility R cr false []
  let t3 := t2 + evaluate_pawn_structure acc.white_pawn_files true
               - evaluate_pawn_structure acc.black_pawn_files false
  let endgame := is_endgame acc.white_material acc.black_material
  let t4 := t3 + evaluate_king_safety cr acc.white_king_index true endgame
               - evaluate_king_safety cr acc.black_king_index false endgame
  if endgame then
    t4 + evaluate_king_activity acc.white_king_index acc.black_king_index true
       - evaluate_king_activity acc.black_king_index acc.white_king_index false
  else t4

/-! Zobrist keying (super-engine only).  The table entries are 64-bit words drawn
from a fixed-seed mt19937_64 in init_zobrist; their values are opaque to the
claims, so the tables are parameters of the development. -/

/-- Zobrist tables of the super engine: zobrist[12][64], zobrist_side,
zobrist_castling[16], zobrist_en_passant[8]. -/
structure Zobrist where
  piece : Nat → Nat → Nat
  side : Nat
  castling : Nat → Nat
  en_passant : Nat → Nat

/-- piece_to_index from serial-engine.cpp: white P,N,B,R,Q,K map to 0..5, black
p,n,b,r,q,k to 6..11, and any other character to -1. -/
def piece_to_index (c : Char) : Int :=
  let white := c.isUpper
  let base : Int :=
    match c.toLower with
    | 'p' => 0
    | 'n' => 1
    | 'b' => 2
    | 'r' => 3
    | 'q' => 4
    | 'k' => 5
    | _ => -1
  if base = -1 then -1
  else if white then base else base + 6

/-- compute_zobrist_key from serial-engine.cpp: XOR of z_piece over the occupied
squares with a valid piece character, then side to move, the 4-bit castling mask
(bit 0 wking, bit 1 wqueen, bit 2 bking, bit 3 bqueen), and the en-passant file. -/
def compute_zobrist_key (Z : Zobrist) (cr : Pos) : Nat :=
  let key0 := (List.range 64).foldl
    (fun key i =>
      let c := cr.squares i
      if c ≠ ' ' then
        let idx := piece_to_index c
        if 0 ≤ idx then key ^^^ Z.piece idx.toNat i else key
      else key) 0
  let key1 := if !cr.whiteToPlay then key0 ^^^ Z.side else key0
  let castling_mask : Nat :=
    (if cr.wking then 1 else 0) ||| (if cr.wqueen then 2 else 0) |||
    (if cr.bking then 4 else 0) ||| (if cr.bqueen then 8 else 0)
  let key2 := key1 ^^^ Z.castling castling_mask
  match cr.enpassantTarget with
  | some sq => key2 ^^^ Z.en_passant (sq % 8)
  | none => key2

/-! Move sorting.  Both engines sort their scored move lists with
`std::sort(..., [](auto a, auto b){ return a.first > b.first; })`, i.e. into an
order in which scores are non-increasing; std::sort leaves the order of ties
unspecified, and insertion sort realises one valid outcome. -/

/-- Non-increasing-score order on scored moves. -/
def byScoreDesc : (Rat × Move) → (Rat × Move) → Prop := fun a b => b.1 ≤ a.1

instance : DecidableRel byScoreDesc := fun a b => inferInstanceAs (Decidable (b.1 ≤ a.1))

instance : IsTotal (Rat × Move) byScoreDesc := ⟨fun a b => le_total b.1 a.1⟩

instance : IsTrans (Rat × Move) byScoreDesc := ⟨fun _ _ _ h1 h2 => le_trans h2 h1⟩

/-- Sort a scored move list by descending score. -/
def sortMoves (l : List (Rat × Move)) : List (Rat × Move) :=
  List.insertionSort byScoreDesc l

/-- Move ordering at a super-engine interior node (solve_serial_engine, the
scored_moves block): score every legal move with score_move and sort by
descending score.  The transposition table plays no part in it. -/
def order_moves (cr : Pos) (legal_moves : List Move) : List Move :=
  (sortMoves (legal_moves.map (fun m => (score_move m cr, m)))).map Prod.snd

end Engine

namespace Engine

/-! Super engine (super-engine/src): Zobrist-keyed transposition table and the
minimax alpha-beta search with static evaluation at the horizon. -/

namespace Super

/-- BoundType of TTEntry. -/
inductive Bound where
  | EXACT
  | LOWER
  | UPPER
deriving DecidableEq

/-- TTEntry from super serial-engine.h: key, depth (a C++ int, -1 in fresh
slots), score (stored through an `(int)` cast, here the identity because all
search scores are integral), best move, and bound. -/
structure TTEntry where
  key : Nat
  depth : Int
  score : Int
  best_move : Move
  bound : Bound
deriving DecidableEq

/-- TT_SIZE = 1 << 20. -/
def TT_SIZE : Nat := 1 <<< 20

/-- The transposition table: TT_SIZE slots, indexed by key & (TT_SIZE - 1). -/
def TT := Nat → TTEntry

/-- init_transposition_table: every slot keyed 0 at depth -1 with an invalid
move and an EXACT bound. -/
def init_transposition_table : TT :=
  fun _ => ⟨0, -1, 0, invalidMove, Bound.EXACT⟩

/-- Slot index of a key. -/
def ttIndex (key : Nat) : Nat := key &&& (TT_SIZE - 1)

/-- probe_tt: the resident entry if its key matches, else a miss. -/
def probe_tt (tt : TT) (key : Nat) : Option TTEntry :=
  let entry := tt (ttIndex key)
  if entry.key = key then some entry else none

/-- store_tt: depth-preferred replacement — overwrite the slot only when the new
depth exceeds the resident depth. -/
def store_tt (tt : TT) (key : Nat) (depth : Int) (score : Int) (bound : Bound)
    (best_move : Move) : TT :=
  let index := ttIndex key
  let entry := tt index
  if depth > entry.depth then
    fun j => if j = index then ⟨key, depth, score, best_move, bound⟩ else tt j
  else tt

/-- Probe-cut logic of solve_serial_engine after a sufficiently deep hit: the
switch on entry->bound followed by the common alpha >= beta check.  Yields
either an immediate return value (inl) or the narrowed window (inr). -/
def tt_cut (entry : TTEntry) (alpha_score beta_score : Int) : Int ⊕ (Int × Int) :=
  match entry.bound with
  | Bound.EXACT => Sum.inl entry.score
  | Bound.LOWER =>
    if entry.score ≥ beta_score then Sum.inl entry.score
    else
      let alpha1 := max alpha_score entry.score
      if alpha1 ≥ beta_score then Sum.inl entry.score else Sum.inr (alpha1, beta_score)
  | Bound.UPPER =>
    if entry.score ≤ alpha_score then Sum.inl entry.score
    else
      let beta1 := min beta_score entry.score
      if alpha_score ≥ beta1 then Sum.inl entry.score else Sum.inr (alpha_score, beta1)

/-- Mutable engine state threaded through the super search: the cancellation
flag time_limit_reached, the number of wall-clock comparisons made so far (the
index into the clock oracle), and the transposition table. -/
structure SState where
  flag : Bool
  tick : Nat
  tt : TT

/-- One wall-clock comparison against TIME_LIMIT_SECONDS: consumes the next
clock-oracle value; a true outcome sets time_limit_reached. -/
def timeCheck (clock : Nat → Bool) (st : SState) : SState × Bool :=
  (⟨st.flag || clock st.tick, st.tick + 1, st.tt⟩, clock st.tick)

/-- Result of solve_serial_engine: the returned score, the position after the
call, the state, and the value written through the best_move reference (`none`
when the reference was not written; only a depth-0 frame ever writes it). -/
structure SseRes where
  score : Int
  pos : Pos
  st : SState
  out : Option Move

/-- Result of the move loop of solve_serial_engine: either the early `return 0`
taken when the flag is found set after a child call (cut), or normal completion
(by exhaustion or cutoff break) with the final best score, window, and local
best move (`none` when no child improved; the C++ local_best is then still the
default-constructed move). -/
inductive LoopRes where
  | cut (score : Int) (pos : Pos) (st : SState)
  | done (best : Int) (alphaF betaF : Int) (localBest : Option Move) (pos : Pos) (st : SState)

/-- Move loop of solve_serial_engine.  `recurse` is the recursive call at
depth + 1.  The best_move reference that the source passes down unchanged is
written only by depth-0 frames, which a child never is, so the child's out
value is dropped here exactly as the source drops it. -/
def searchLoop (R : Rules) (recurse : Pos → Int → Int → SState → SseRes)
    (is_white_player : Bool) :
    List Move → Pos → SState → Int → Int → Int → Option Move → LoopRes
  | [], pos, st, alpha_score, beta_score, best_score, local_best =>
    LoopRes.done best_score alpha_score beta_score local_best pos st
  | m :: rest, pos, st, alpha_score, beta_score, best_score, local_best =>
    let r := recurse (R.push pos m) alpha_score beta_score st
    let pos1 := R.pop r.pos m
    if r.st.flag then LoopRes.cut 0 pos1 r.st
    else if is_white_player then
      if r.score > best_score then
        let best1 := r.score
        let alpha1 := max alpha_score best1
        if alpha1 ≥ beta_score then
          LoopRes.done best1 alpha1 beta_score (some m) pos1 r.st
        else searchLoop R recurse is_white_player rest pos1 r.st alpha1 beta_score best1 (some m)
      else
        if alpha_score ≥ beta_score then
          LoopRes.done best_score alpha_score beta_score local_best pos1 r.st
        else searchLoop R recurse is_white_player rest pos1 r.st alpha_score beta_score
          best_score local_best
    else
      if r.score < best_score then
        let best1 := r.score
        let beta1 := min beta_score best1
        if beta1 ≤ alpha_score then
          LoopRes.done best1 alpha_score beta1 (some m) pos1 r.st
        else searchLoop R recurse is_white_player rest pos1 r.st alpha_score beta1 best1 (some m)
      else
        if beta_score ≤ alpha_score then
          LoopRes.done best_score alpha_score beta_score local_best pos1 r.st
        else searchLoop R recurse is_white_player rest pos1 r.st alpha_score beta_score
          best_score local_best

/-- MAX_DEPTH = 8 from super serial-engine.h. -/
def MAX_DEPTH : Nat := 8

/-- Body of solve_serial_engine after the flag/clock checks and the TT probe:
draw and terminal handling, static evaluation at the horizon (the quiesce call
there is commented out in the source), the ordered move loop, and the TT store.
`recurse` is the recursive call at depth + 1; alpha_score/beta_score carry the
window as possibly narrowed by the probe, alpha_original the entry value saved
before the probe. -/
def sseBody (R : Rules) (recurse : Pos → Int → Int → SState → SseRes)
    (cr : Pos) (is_white_player : Bool) (depth max_depth : Nat) (key : Nat)
    (alpha_original alpha_score beta_score : Int) (st1 : SState) : SseRes :=
  let search_depth : Int := (max_depth : Int) - (depth : Int)
  if R.isDraw cr then ⟨0, cr, st1, none⟩
  else
    match R.terminal cr with
    | TerminalKind.wcheckmate => ⟨-INF_SCORE + (depth : Int), cr, st1, none⟩
    | TerminalKind.bcheckmate => ⟨INF_SCORE - (depth : Int), cr, st1, none⟩
    | TerminalKind.wstalemate => ⟨0, cr, st1, none⟩
    | TerminalKind.bstalemate => ⟨0, cr, st1, none⟩
    | TerminalKind.notTerminal =>
      if depth = max_depth then ⟨static_eval R cr, cr, st1, none⟩
      else
        let legal_moves := R.legalMoves cr
        if legal_moves = [] then ⟨0, cr, st1, none⟩
        else
          let ordered := order_moves cr legal_moves
          let init_best : Int := if is_white_player then -INF_SCORE else INF_SCORE
          match searchLoop R recurse is_white_player ordered cr st1 alpha_score beta_score
              init_best none with
          | LoopRes.cut s p st2 => ⟨s, p, st2, none⟩
          | LoopRes.done best alphaF betaF localBest p st2 =>
            let bound :=
              if best ≤ alpha_original then Bound.UPPER
              else if best ≥ betaF then Bound.LOWER
              else Bound.EXACT
            let tt2 := store_tt st2.tt key search_depth best bound
              (localBest.getD invalidMove)
            let out := if depth = 0 then localBest else none
            ⟨best, p, ⟨st2.flag, st2.tick, tt2⟩, out⟩

/-- solve_serial_engine from super-engine/src/serial-engine.cpp: cancellation
and clock checks, Zobrist probe with probe-cut, then sseBody.  The extra fuel
argument makes the recursion structural; every source-level call satisfies
fuel > max_depth - depth, so the fuel-0 branch is never reached there (the C++
recursion always terminates through the depth == max_depth horizon). -/
def solve_serial_engine (R : Rules) (Z : Zobrist) (clock : Nat → Bool) :
    Nat → Pos → Bool → Nat → Nat → Int → Int → SState → SseRes
  | 0, pos, _, _, _, _, _, st => ⟨0, pos, st, none⟩
  | fuel + 1, cr, is_white_player, depth, max_depth, alpha_score, beta_score, st =>
    if st.flag then ⟨0, cr, st, none⟩
    else
      let tc := if depth % 5 = 0 then timeCheck clock st else (st, false)
      if tc.2 then ⟨0, cr, tc.1, none⟩
      else
        let st1 := tc.1
        let key := compute_zobrist_key Z cr
        let alpha_original := alpha_score
        let search_depth : Int := (max_depth : Int) - (depth : Int)
        let afterTT : Int ⊕ (Int × Int) :=
          match probe_tt st1.tt key with
          | some entry =>
            if entry.depth ≥ search_depth then tt_cut entry alpha_score beta_score
            else Sum.inr (alpha_score, beta_score)
          | none => Sum.inr (alpha_score, beta_score)
        match afterTT with
        | Sum.inl s => ⟨s, cr, st1, none⟩
        | Sum.inr (alpha2, beta2) =>
          sseBody R
            (fun p a b s =>
              solve_serial_engine R Z clock fuel p (!is_white_player) (depth + 1)
                max_depth a b s)
            cr is_white_player depth max_depth key alpha_original alpha2 beta2 st1

/-- Capture loop of quiesce.  `recurseQ` is the recursive quiesce call; nothing
in quiesce writes the cancellation flag, so it is a plain boolean here. -/
def quiesceLoop (R : Rules) (recurseQ : Pos → Int → Int → Int × Pos)
    (time_limit_reached : Bool) :
    List Move → Pos → Int → Int → Int × Pos
  | [], pos, alpha, _ => (alpha, pos)
  | m :: rest, pos, alpha, beta =>
    let r := recurseQ (R.push pos m) (-beta) (-alpha)
    let val := -r.1
    let pos1 := R.pop r.2 m
    if time_limit_reached then (0, pos1)
    else if val ≥ beta then (val, pos1)
    else if val > alpha then quiesceLoop R recurseQ time_limit_reached rest pos1 val beta
    else quiesceLoop R recurseQ time_limit_reached rest pos1 alpha beta

/-- quiesce from super-engine/src/serial-engine.cpp: stand-pat cutoff on the
static evaluation, then a negamax search over the capture moves only, ordered by
score_move, returning the final alpha.  The fuel argument makes the recursion
structural (the C++ recursion terminates because capture sequences are finite). -/
def quiesce (R : Rules) (time_limit_reached : Bool) :
    Nat → Pos → Int → Int → Int × Pos
  | 0, pos, _, _ => (0, pos)
  | fuel + 1, cr, alpha, beta =>
    let stand_pat := static_eval R cr
    if stand_pat ≥ beta then (stand_pat, cr)
    else
      let alpha1 := if stand_pat > alpha then stand_pat else alpha
      let capture_moves := (R.legalMoves cr).filter (fun m => m.capture ≠ ' ')
      let scored := sortMoves (capture_moves.map (fun m => (score_move m cr, m)))
      quiesceLoop R (fun p a b => quiesce R time_limit_reached fuel p a b)
        time_limit_reached (scored.map Prod.snd) cr alpha1 beta

/-- Iterative-deepening loop of solve: run depths current_depth, current_depth+1,
... while iterations remain, breaking when the flag is (or becomes) set; a
tripped iteration leaves the provisional best move and move_found untouched. -/
def solveLoop (R : Rules) (Z : Zobrist) (clock : Nat → Bool) (is_white_player : Bool) :
    Nat → Nat → Option Move → Bool → SState → Pos → (Option Move × Bool × SState × Pos)
  | 0, _, best, found, st, pos => (best, found, st, pos)
  | iters + 1, current_depth, best, found, st, pos =>
    if st.flag then (best, found, st, pos)
    else
      let r := solve_serial_engine R Z clock (current_depth + 1) pos is_white_player 0
        current_depth (-INF_SCORE) INF_SCORE st
      if r.st.flag then (best, found, r.st, r.pos)
      else solveLoop R Z clock is_white_player iters (current_depth + 1) r.out true r.st r.pos

/-- solve from super-engine/src/serial-engine.cpp: reset the flag, deepen from
depth 1 to MAX_DEPTH discarding any iteration that trips the flag, and fall back
to the first legal move — or the default-constructed move — when no iteration
completed.  The option models the best_move_so_far variable, `none` standing for
its indeterminate never-written value (like the default-constructed thc::Move,
an invalid sentinel). -/
def solve (R : Rules) (Z : Zobrist) (clock : Nat → Bool) (cr : Pos)
    (is_white_player : Bool) (st_in : SState) : Option Move × Pos × SState :=
  let st0 : SState := ⟨false, 0, st_in.tt⟩
  let l := solveLoop R Z clock is_white_player MAX_DEPTH 1 none false st0 cr
  let best_move_so_far := l.1
  let move_found := l.2.1
  let st := l.2.2.1
  let pos := l.2.2.2
  if move_found then (best_move_so_far, pos, st)
  else
    match R.legalMoves pos with
    | [] => (none, pos, st)
    | m :: _ => (some m, pos, st)

end Super

/-! Prune engine (prune-engine/src): no transposition table; PV, killer and
history move ordering; quiesce at the horizon. -/

namespace Prune

/-- MAX_DEPTH = 7 from prune serial-engine.h. -/
def MAX_DEPTH : Nat := 7

/-- MAX_KILLER_MOVES = 2 from prune serial-engine.h. -/
def MAX_KILLER_MOVES : Nat := 2

/-- Mutable engine state of the prune engine: the cancellation flag and clock
tick, the PV moves of the completed iterations, the killer-move lists per depth,
and the history table (C++ float counters, modelled as rationals). -/
structure PState where
  flag : Bool
  tick : Nat
  pv_moves : List Move
  killer_moves : Nat → List Move
  history_table : Nat → Nat → Rat

/-- One wall-clock comparison, as in the super engine. -/
def timeCheck (clock : Nat → Bool) (st : PState) : PState × Bool :=
  (⟨st.flag || clock st.tick, st.tick + 1, st.pv_moves, st.killer_moves, st.history_table⟩,
   clock st.tick)

/-- quiesce from prune-engine/src/serial-engine.cpp.  Its second statement is
`return static_eval(cr);`, so the stand-pat / capture-search code written after
it is unreachable: the executed behaviour is exactly the static evaluation with
the position untouched. -/
def quiesce (R : Rules) (cr : Pos) (alpha beta : Int) : Int × Pos :=
  (static_eval R cr, cr)

/-- Bookkeeping on a beta/alpha cutoff (identical in the white and black
branches): bump history_table[src][dst] by 1, and add the move to the killer
list of this depth unless it is the PV move of the depth or already recorded,
with replace-index-0 overflow beyond MAX_KILLER_MOVES. -/
def cutoffBookkeeping (st : PState) (depth : Nat) (move : Move) : PState :=
  let hist2 := fun a b =>
    if a = move.src ∧ b = move.dst then st.history_table a b + 1 else st.history_table a b
  let isPv := depth < st.pv_moves.length ∧ st.pv_moves.getD depth invalidMove = move
  let kd := st.killer_moves depth
  let kd2 :=
    if isPv then kd
    else if move ∈ kd then kd
    else if kd.length < MAX_KILLER_MOVES then kd ++ [move]
    else kd.set 0 move
  ⟨st.flag, st.tick, st.pv_moves, fun d => if d = depth then kd2 else st.killer_moves d, hist2⟩

/-- Move ordering of the prune interior node: the PV move of this depth first
(score INF), then the killer moves of this depth (score INF - 1), each erased
from the remaining legal moves, then the rest scored by score_move plus the
history counter; the whole list sorted by descending score. -/
def prune_order (st : PState) (depth : Nat) (cr : Pos) (legal0 : List Move) :
    List (Rat × Move) :=
  let step1 :=
    if depth < st.pv_moves.length then
      let pv_move := st.pv_moves.getD depth invalidMove
      if pv_move ∈ legal0 then ([(INF_SCORE_Q, pv_move)], legal0.erase pv_move)
      else (([] : List (Rat × Move)), legal0)
    else (([] : List (Rat × Move)), legal0)
  let step2 := (st.killer_moves depth).foldl
    (fun acc killer_move =>
      if killer_move ∈ acc.2 then
        (acc.1 ++ [(INF_SCORE_Q - 1, killer_move)], acc.2.erase killer_move)
      else acc) step1
  let scored := step2.1 ++ step2.2.map
    (fun move => (score_move move cr + st.history_table move.src move.dst, move))
  sortMoves scored

/-- Result of the prune solve_serial_engine, as for the super engine. -/
structure PSseRes where
  score : Int
  pos : Pos
  st : PState
  out : Option Move

/-- Result of the prune move loop. -/
inductive PLoopRes where
  | cut (score : Int) (pos : Pos) (st : PState)
  | done (best : Int) (out : Option Move) (pos : Pos) (st : PState)

/-- Move loop of the prune solve_serial_engine.  The best_move reference is
written during the loop, only at depth 0; the children receive a scratch
temp_best_move whose final value is dropped. -/
def searchLoop (R : Rules) (recurse : Pos → Int → Int → PState → PSseRes)
    (is_white_player : Bool) (depth : Nat) :
    List Move → Pos → PState → Int → Int → Int → Option Move → PLoopRes
  | [], pos, st, _, _, best_score, out => PLoopRes.done best_score out pos st
  | move :: rest, pos, st, alpha_score, beta_score, best_score, out =>
    let r := recurse (R.push pos move) alpha_score beta_score st
    let pos1 := R.pop r.pos move
    if r.st.flag then PLoopRes.cut 0 pos1 r.st
    else if is_white_player then
      if r.score > best_score then
        let best1 := r.score
        let out1 := if depth = 0 then some move else out
        let alpha1 := max alpha_score best1
        if beta_score ≤ alpha1 then
          PLoopRes.done best1 out1 pos1 (cutoffBookkeeping r.st depth move)
        else searchLoop R recurse is_white_player depth rest pos1 r.st alpha1 beta_score best1 out1
      else
        if beta_score ≤ alpha_score then
          PLoopRes.done best_score out pos1 (cutoffBookkeeping r.st depth move)
        else searchLoop R recurse is_white_player depth rest pos1 r.st alpha_score beta_score
          best_score out
    else
      if r.score < best_score then
        let best1 := r.score
        let out1 := if depth = 0 then some move else out
        let beta1 := min beta_score best1
        if beta1 ≤ alpha_score then
          PLoopRes.done best1 out1 pos1 (cutoffBookkeeping r.st depth move)
        else searchLoop R recurse is_white_player depth rest pos1 r.st alpha_score beta1 best1 out1
      else
        if beta_score ≤ alpha_score then
          PLoopRes.done best_score out pos1 (cutoffBookkeeping r.st depth move)
        else searchLoop R recurse is_white_player depth rest pos1 r.st alpha_score beta_score
          best_score out

/-- Body of the prune solve_serial_engine after the flag/clock checks: draw and
terminal handling, quiesce at the horizon, and the PV/killer/history-ordered
move loop.  `recurse` is the recursive call at depth + 1. -/
def sseBody (R : Rules) (recurse : Pos → Int → Int → PState → PSseRes)
    (cr : Pos) (is_white_player : Bool) (depth max_depth : Nat)
    (alpha_score beta_score : Int) (st1 : PState) : PSseRes :=
  if R.isDraw cr then ⟨0, cr, st1, none⟩
  else
    match R.terminal cr with
    | TerminalKind.wcheckmate => ⟨-INF_SCORE + (depth : Int), cr, st1, none⟩
    | TerminalKind.bcheckmate => ⟨INF_SCORE - (depth : Int), cr, st1, none⟩
    | TerminalKind.wstalemate => ⟨0, cr, st1, none⟩
    | TerminalKind.bstalemate => ⟨0, cr, st1, none⟩
    | TerminalKind.notTerminal =>
      if depth = max_depth then
        let q := quiesce R cr alpha_score beta_score
        ⟨q.1, q.2, st1, none⟩
      else
        let legal_moves := R.legalMoves cr
        if legal_moves = [] then ⟨0, cr, st1, none⟩
        else
          let scored := prune_order st1 depth cr legal_moves
          let init_best : Int := if is_white_player then -INF_SCORE else INF_SCORE
          match searchLoop R recurse is_white_player depth (scored.map Prod.snd) cr st1
              alpha_score beta_score init_best none with
          | PLoopRes.cut s p st2 => ⟨s, p, st2, none⟩
          | PLoopRes.done best out p st2 => ⟨best, p, st2, out⟩

/-- solve_serial_engine from prune-engine/src/serial-engine.cpp: cancellation
and clock checks, then sseBody.  Fuel as in the super engine. -/
def solve_serial_engine (R : Rules) (clock : Nat → Bool) :
    Nat → Pos → Bool → Nat → Nat → Int → Int → PState → PSseRes
  | 0, pos, _, _, _, _, _, st => ⟨0, pos, st, none⟩
  | fuel + 1, cr, is_white_player, depth, max_depth, alpha_score, beta_score, st =>
    if st.flag then ⟨0, cr, st, none⟩
    else
      let tc := if depth % 5 = 0 then timeCheck clock st else (st, false)
      if tc.2 then ⟨0, cr, tc.1, none⟩
      else
        sseBody R
          (fun p a b s =>
            solve_serial_engine R clock fuel p (!is_white_player) (depth + 1)
              max_depth a b s)
          cr is_white_player depth max_depth alpha_score beta_score tc.1

/-- Iterative-deepening loop of the prune solve, with the PV update of a
completed iteration (current_best_move is indeterminate when the iteration wrote
nothing; its model is invalidMove there). -/
def solveLoop (R : Rules) (clock : Nat → Bool) (is_white_player : Bool) :
    Nat → Nat → Option Move → Bool → PState → Pos → (Option Move × Bool × PState × Pos)
  | 0, _, best, found, st, pos => (best, found, st, pos)
  | iters + 1, current_depth, best, found, st, pos =>
    if st.flag then (best, found, st, pos)
    else
      let r := solve_serial_engine R clock (current_depth + 1) pos is_white_player 0
        current_depth (-INF_SCORE) INF_SCORE st
      if r.st.flag then (best, found, r.st, r.pos)
      else
        let cbm := r.out.getD invalidMove
        let pv2 :=
          if current_depth ≤ r.st.pv_moves.length then r.st.pv_moves.set (current_depth - 1) cbm
          else r.st.pv_moves ++ [cbm]
        let st2 : PState := ⟨r.st.flag, r.st.tick, pv2, r.st.killer_moves, r.st.history_table⟩
        solveLoop R clock is_white_player iters (current_depth + 1) r.out true st2 r.pos

/-- solve from prune-engine/src/serial-engine.cpp: reset the flag, clear the PV,
deepen from depth 1 to MAX_DEPTH, and fall back as in the super engine. -/
def solve (R : Rules) (clock : Nat → Bool) (cr : Pos) (is_white_player : Bool)
    (st_in : PState) : Option Move × Pos × PState :=
  let st0 : PState := ⟨false, 0, [], st_in.killer_moves, st_in.history_table⟩
  let l := solveLoop R clock is_white_player MAX_DEPTH 1 none false st0 cr
  let best_move_so_far := l.1
  let move_found := l.2.1
  let st := l.2.2.1
  let pos := l.2.2.2
  if move_found then (best_move_so_far, pos, st)
  else
    match R.legalMoves pos with
    | [] => (none, pos, st)
    | m :: _ => (some m, pos, st)

end Prune

end Engine

namespace Engine

/-! Specification-side definitions.  These follow the wording of the spec and of
the claims (not the source); they exist to be compared with the definitions
translated from the source. -/

/-- Number of maximal runs of occupied files (pawn islands) in an occupancy
list, given whether the file before the list was occupied: a run is counted at
each occupied element whose predecessor is unoccupied. -/
def runCount : Bool → List Bool → Nat
  | _, [] => 0
  | prev, b :: bs => (if b && !prev then 1 else 0) + runCount b bs

/-- Occupancy of the last element of the list, defaulting to prev. -/
def lastOcc (prev : Bool) (l : List Bool) : Bool := l.foldl (fun _ b => b) prev

/-- Pawns beyond the first on each of the given files, summed. -/
def sumBeyond (c : Nat → Nat) (l : List Nat) : Nat := (l.map (fun i => c i - 1)).sum

/-- Spec wording: minus 10 for each pawn beyond the first on a file. -/
def doubled_penalty (pawn_files : List Nat) : Int :=
  -10 * ((sumBeyond (file_counts pawn_files) (List.range 8) : Nat) : Int)

/-- Spec wording: file i (of 0..7) is occupied and both neighbouring files are
empty. -/
def isolated_claim (c : Nat → Nat) (i : Nat) : Prop :=
  0 < c i ∧ (i = 0 ∨ c (i - 1) = 0) ∧ (i = 7 ∨ c (i + 1) = 0)

instance (c : Nat → Nat) (i : Nat) : Decidable (isolated_claim c i) := by
  unfold isolated_claim; infer_instance

/-- Spec wording: minus 15 per occupied file whose neighbouring files are both
empty. -/
def isolated_penalty (pawn_files : List Nat) : Int :=
  -15 * ((((List.range 8).filter
      (fun i => decide (isolated_claim (file_counts pawn_files) i))).length : Nat) : Int)

/-- Spec wording: the number of pawn islands (maximal runs of consecutive files
holding at least one pawn). -/
def pawn_islands_of (pawn_files : List Nat) : Nat :=
  runCount false ((List.range 8).map (fun i => decide (0 < file_counts pawn_files i)))

/-- Claim wording for the island term of C9: minus 5 per island beyond the
first, hence no island contribution for a side with at most one island (in
particular with no pawns). -/
def islands_penalty_claim (pawn_files : List Nat) : Int :=
  -5 * (((pawn_islands_of pawn_files - 1 : Nat) : Nat) : Int)

/-- Total pawn-structure score exactly as claim C9 states it. -/
def evaluate_pawn_structure_claim (pawn_files : List Nat) : Int :=
  doubled_penalty pawn_files + islands_penalty_claim pawn_files + isolated_penalty pawn_files

end Engine

namespace Engine

/-! Further specification-side definitions and the concrete instances used by
witnesses and counterexamples. -/

/-- Claim C8's piece-index table: 0..5 for white P,N,B,R,Q,K, 6..11 for the
corresponding black pieces, nothing for any other character. -/
def claim_piece_index (c : Char) : Option Nat :=
  match c with
  | 'P' => some 0
  | 'N' => some 1
  | 'B' => some 2
  | 'R' => some 3
  | 'Q' => some 4
  | 'K' => some 5
  | 'p' => some 6
  | 'n' => some 7
  | 'b' => some 8
  | 'r' => some 9
  | 'q' => some 10
  | 'k' => some 11
  | _ => none

/-- Zobrist key exactly as claim C8 words it: the XOR of z_piece[p][sq] over the
occupied squares, XOR z_side exactly when Black is to move, XOR z_castle[mask]
for the 4-bit castling mask (bit 0 white king-side, bit 1 white queen-side,
bit 2 black king-side, bit 3 black queen-side), and XOR z_ep[file] exactly when
an en-passant target square is set. -/
def spec_zobrist_key (Z : Zobrist) (cr : Pos) : Nat :=
  let pieceXor := ((List.range 64).filterMap
    (fun i => (claim_piece_index (cr.squares i)).map (fun p => Z.piece p i))).foldl
    (fun k z => k ^^^ z) 0
  let k1 := if cr.whiteToPlay then pieceXor else pieceXor ^^^ Z.side
  let mask : Nat := (if cr.wking then 1 else 0) + (if cr.wqueen then 2 else 0) +
    (if cr.bking then 4 else 0) + (if cr.bqueen then 8 else 0)
  let k2 := k1 ^^^ Z.castling mask
  match cr.enpassantTarget with
  | some sq => k2 ^^^ Z.en_passant (sq % 8)
  | none => k2

/-- The 13 characters a thc board square can hold. -/
def boardChars : List Char :=
  [' ', 'P', 'N', 'B', 'R', 'Q', 'K', 'p', 'n', 'b', 'r', 'q', 'k']

/-- Bound classification exactly as claim C2 words it, relative to the alpha
and beta values the node was entered with. -/
def claim_bound (best alphaEntry betaEntry : Int) : Super.Bound :=
  if best ≤ alphaEntry then Super.Bound.UPPER
  else if best ≥ betaEntry then Super.Bound.LOWER
  else Super.Bound.EXACT

/-- Position component of a super move-loop result. -/
def Super.LoopRes.position : Super.LoopRes → Pos
  | Super.LoopRes.cut _ p _ => p
  | Super.LoopRes.done _ _ _ _ p _ => p

/-- State component of a super move-loop result. -/
def Super.LoopRes.state : Super.LoopRes → Super.SState
  | Super.LoopRes.cut _ _ s => s
  | Super.LoopRes.done _ _ _ _ _ s => s

/-- Position component of a prune move-loop result. -/
def Prune.PLoopRes.position : Prune.PLoopRes → Pos
  | Prune.PLoopRes.cut _ p _ => p
  | Prune.PLoopRes.done _ _ p _ => p

/-! Concrete instances for witnesses and counterexamples. -/

/-- Trivial rules: no legal moves, push and pop change nothing, never drawn or
terminal. -/
def R0 : Rules :=
  ⟨fun _ => [], fun p _ => p, fun p _ => p, fun _ => false, fun _ => TerminalKind.notTerminal⟩

/-- The empty board, white to play, no castling rights, no en passant. -/
def emptyPos : Pos := ⟨fun _ => ' ', true, false, false, false, false, none⟩

/-- A board holding a single white pawn on square 0, black to play. -/
def pawnPos : Pos :=
  ⟨fun i => if i = 0 then 'P' else ' ', false, false, false, false, false, none⟩

/-- All-zero Zobrist tables (legitimate table values for the structural claims;
every position then hashes to key 0). -/
def Z0 : Zobrist := ⟨fun _ _ => 0, 0, fun _ => 0, fun _ => 0⟩

/-- A clock oracle on which the time limit is never reached. -/
def clockNever : Nat → Bool := fun _ => false

/-- A clock oracle on which every time check fires. -/
def clockAlways : Nat → Bool := fun _ => true

/-- A quiet move from square 8 to square 16. -/
def m1 : Move := ⟨8, 16, ' ', SpecialTag.simple⟩

/-- Rules for the C2 counterexample: a white-to-play position has the single
legal move m1, pushing reaches pawnPos, popping returns to emptyPos. -/
def R2 : Rules :=
  ⟨fun p => if p.whiteToPlay then [m1] else [],
   fun _ _ => pawnPos, fun _ _ => emptyPos, fun _ => false,
   fun _ => TerminalKind.notTerminal⟩

/-- Fresh super state: flag clear, tick 0, freshly initialised table. -/
def st0 : Super.SState := ⟨false, 0, Super.init_transposition_table⟩

/-- A queen-capturing move from square 9 to square 17. -/
def mB : Move := ⟨9, 17, 'q', SpecialTag.simple⟩

/-- Rules for the C6 counterexample: every position has the two legal moves m1
and mB. -/
def R3 : Rules :=
  ⟨fun _ => [m1, mB], fun p _ => p, fun p _ => p, fun _ => false,
   fun _ => TerminalKind.notTerminal⟩

/-- A table whose every slot holds key 0 at depth 3, score 7, best move m1. -/
def tt3 : Super.TT := fun _ => ⟨0, 3, 7, m1, Super.Bound.EXACT⟩

/-- An EXACT entry of score 42 at depth 5, keyed 0. -/
def ttE : Super.TTEntry := ⟨0, 5, 42, invalidMove, Super.Bound.EXACT⟩

/-- Super state holding ttE in every slot. -/
def stE : Super.SState := ⟨false, 0, fun _ => ttE⟩

/-- Rules with a single unconditional legal move (for the C4 witness). -/
def RL : Rules :=
  ⟨fun _ => [m1], fun p _ => p, fun p _ => p, fun _ => false,
   fun _ => TerminalKind.notTerminal⟩

/-- Rules under which every position is drawn (for the C7 witness). -/
def RDraw : Rules :=
  ⟨fun _ => [], fun p _ => p, fun p _ => p, fun _ => true,
   fun _ => TerminalKind.notTerminal⟩

/-- Rules under which every position is a white checkmate (for the C7 witness). -/
def RMate : Rules :=
  ⟨fun _ => [], fun p _ => p, fun p _ => p, fun _ => false,
   fun _ => TerminalKind.wcheckmate⟩

/-- Fresh prune state. -/
def pst0 : Prune.PState := ⟨false, 0, [], fun _ => [], fun _ _ => 0⟩

/-- A small well-formed board for the C8 witness: white rook on square 0, black
pawn on square 12, black to move, both white castling rights, en passant target
square 20. -/
def c8Pos : Pos :=
  ⟨fun i => if i = 0 then 'R' else if i = 12 then 'p' else ' ',
   false, true, true, false, false, some 20⟩

/-- Distinguishable Zobrist tables for the C8 witness. -/
def Z1 : Zobrist :=
  ⟨fun p sq => 2 ^ (p * 5) + sq, 3, fun m => 100 + m, fun f => 1000 + f⟩

end Engine

namespace Engine

/-! Lemmas about evaluate_pawn_structure. -/

/-- The first loop of evaluate_pawn_structure computes the doubled-pawn sum, the
island count, and carries the occupancy of the last file seen. -/
theorem eps_foldl_eq (c : Nat → Nat) :
    ∀ (l : List Nat) (s : Int) (isl : Nat) (inIsl : Bool),
    l.foldl (epsStep c) (s, isl, inIsl) =
      (s - 10 * ((sumBeyond c l : Nat) : Int),
       isl + runCount inIsl (l.map (fun i => decide (0 < c i))),
       lastOcc inIsl (l.map (fun i => decide (0 < c i)))) := by
  intro l
  induction l with
  | nil =>
    intro s isl inIsl
    simp [sumBeyond, runCount, lastOcc]
  | cons i rest ih =>
    intro s isl inIsl
    simp only [List.foldl_cons, List.map_cons]
    rw [ih]
    rcases Nat.eq_zero_or_pos (c i) with h0 | hpos
    · have hstep : epsStep c (s, isl, inIsl) i = (s, isl, false) := by
        simp [epsStep, h0]
      rw [hstep]
      have hb : (decide (0 < c i)) = false := by simp [h0]
      rw [hb]
      simp only [runCount, lastOcc, List.foldl_cons, sumBeyond, List.map_cons, List.sum_cons,
        Prod.mk.injEq]
      refine ⟨?_, ?_, trivial⟩
      · rw [h0]; simp
      · simp
    · have hb : (decide (0 < c i)) = true := by simpa using hpos
      have hstep : epsStep c (s, isl, inIsl) i =
          ((if 1 < c i then s - 10 * ((c i : Int) - 1) else s),
           (if inIsl then isl else isl + 1), true) := by
        simp [epsStep, hpos]
      rw [hstep, hb]
      simp only [runCount, lastOcc, List.foldl_cons, sumBeyond, List.map_cons, List.sum_cons,
        Prod.mk.injEq]
      refine ⟨?_, ?_, trivial⟩
      · rcases Nat.lt_or_ge 1 (c i) with h1 | h1
        · rw [if_pos h1]
          have hcast : ((c i - 1 + (rest.map (fun i => c i - 1)).sum : Nat) : Int) =
              ((c i : Int) - 1) + (((rest.map (fun i => c i - 1)).sum : Nat) : Int) := by
            have h1' : (1 : Nat) ≤ c i := le_of_lt h1
            push_cast [Nat.cast_sub h1']
            ring
          rw [hcast]; ring
        · have hc1 : c i = 1 := le_antisymm h1 hpos
          rw [if_neg (by omega : ¬ 1 < c i)]
          rw [hc1]
          simp
      · cases inIsl <;> simp [runCount] <;> ring

/-- The second loop of evaluate_pawn_structure subtracts 15 per isolated file. -/
theorem eps_isolated_foldl (c : Nat → Nat) :
    ∀ (l : List Nat) (s : Int),
    l.foldl (fun score i => if isolatedAt c i then score - 15 else score) s =
      s - 15 * (((l.filter (fun i => isolatedAt c i)).length : Nat) : Int) := by
  intro l
  induction l with
  | nil => intro s; simp
  | cons i rest ih =>
    intro s
    simp only [List.foldl_cons, List.filter_cons]
    cases h : isolatedAt c i
    · simp [ih]
    · simp only [ih, if_pos, List.length_cons]
      push_cast
      ring

/-- For files 0..7, the source's isolatedAt test coincides with the claim
wording isolated_claim. -/
theorem isolatedAt_iff_claim (c : Nat → Nat) (i : Nat) (hi : i < 8) :
    isolatedAt c i = decide (isolated_claim c i) := by
  have hiff : isolated_claim c i ↔
      (0 < c i ∧ ¬ ((0 < i ∧ 0 < c (i - 1)) ∨ (i < 7 ∧ 0 < c (i + 1)))) := by
    unfold isolated_claim
    constructor
    · rintro ⟨h1, h2, h3⟩
      refine ⟨h1, ?_⟩
      rintro (⟨hi0, hl⟩ | ⟨hi7, hr⟩)
      · rcases h2 with h | h <;> omega
      · rcases h3 with h | h <;> omega
    · rintro ⟨h1, h2⟩
      refine ⟨h1, ?_, ?_⟩
      · by_cases hz : i = 0
        · exact Or.inl hz
        · refine Or.inr ?_
          by_cases hl : 0 < c (i - 1)
          · exact absurd (Or.inl ⟨by omega, hl⟩) h2
          · omega
      · by_cases h7 : i = 7
        · exact Or.inl h7
        · refine Or.inr ?_
          by_cases hr : 0 < c (i + 1)
          · exact absurd (Or.inr ⟨by omega, hr⟩) h2
          · omega
  have hd : decide (isolated_claim c i) =
      decide (0 < c i ∧ ¬ ((0 < i ∧ 0 < c (i - 1)) ∨ (i < 7 ∧ 0 < c (i + 1)))) :=
    decide_eq_decide.mpr hiff
  rw [hd]
  unfold isolatedAt
  by_cases h1 : 0 < c i
  · by_cases h2 : (0 < i ∧ 0 < c (i - 1)) ∨ (i < 7 ∧ 0 < c (i + 1))
    · simp [h1, h2]
    · simp [h1, h2]
  · simp [h1]

end Engine

namespace Engine

/-- evaluate_pawn_structure equals the doubled and isolated penalties of the
spec plus the island term -5 * (islands - 1) computed in signed arithmetic. -/
theorem evaluate_pawn_structure_eq (pawn_files : List Nat) (is_white : Bool) :
    evaluate_pawn_structure pawn_files is_white =
      doubled_penalty pawn_files + isolated_penalty pawn_files
        - 5 * ((pawn_islands_of pawn_files : Int) - 1) := by
  simp only [evaluate_pawn_structure]
  rw [eps_foldl_eq, eps_isolated_foldl]
  have hfil : (List.range 8).filter (fun i => isolatedAt (file_counts pawn_files) i) =
      (List.range 8).filter (fun i => decide (isolated_claim (file_counts pawn_files) i)) := by
    apply List.filter_congr
    intro i hi
    exact isolatedAt_iff_claim _ i (List.mem_range.mp hi)
  rw [hfil]
  unfold doubled_penalty isolated_penalty pawn_islands_of
  push_cast
  ring

/-- C9: the claim's doubled-pawn and isolated-pawn penalties are exactly the
code's, but its island term is not: the code computes -5 * (pawn_islands - 1) in
signed arithmetic, which for a side with no pawns (zero islands) contributes +5
rather than the claimed 0.  The side with no pawns is the explicit
counterexample: the code returns 5 where the claim's total is 0. -/
theorem c9_pawn_structure_counterexample :
    evaluate_pawn_structure [] true = 5 ∧ evaluate_pawn_structure_claim [] = 0 ∧
      (5 : Int) ≠ 0 := by
  refine ⟨by decide, by decide, by decide⟩

/-- C9 (amended): evaluate_pawn_structure is the sum of -10 per pawn beyond the
first on a file, -15 per occupied file with both neighbouring files empty, and
the island term -5 * (islands - 1) computed in signed arithmetic — which agrees
with the claim (-5 per island beyond the first, none for at most one island)
whenever the side has at least one island, and contributes +5 when it has no
pawns. -/
theorem c9_pawn_structure_amended (pawn_files : List Nat) (is_white : Bool) :
    evaluate_pawn_structure pawn_files is_white =
      doubled_penalty pawn_files + isolated_penalty pawn_files
        - 5 * ((pawn_islands_of pawn_files : Int) - 1) ∧
    (1 ≤ pawn_islands_of pawn_files →
      evaluate_pawn_structure pawn_files is_white = evaluate_pawn_structure_claim pawn_files) := by
  constructor
  · exact evaluate_pawn_structure_eq pawn_files is_white
  · intro h1
    rw [evaluate_pawn_structure_eq pawn_files is_white]
    unfold evaluate_pawn_structure_claim islands_penalty_claim
    have hcast : (((pawn_islands_of pawn_files - 1 : Nat)) : Int) =
        ((pawn_islands_of pawn_files : Int) - 1) := by
      push_cast [Nat.cast_sub h1]
      ring
    rw [hcast]
    ring

/-- C9 witness: a side with one island (a single pawn file) realises the amended
equation and the claim agreement. -/
theorem c9_pawn_structure_amended_witness :
    evaluate_pawn_structure [0] true =
      doubled_penalty [0] + isolated_penalty [0] - 5 * ((pawn_islands_of [0] : Int) - 1) ∧
    evaluate_pawn_structure [0] true = evaluate_pawn_structure_claim [0] :=
  ⟨(c9_pawn_structure_amended [0] true).1,
   (c9_pawn_structure_amended [0] true).2 (by decide)⟩

/-- C10: evaluate_pawn_structure never reads its is_white argument, and its
value depends on the pawn-file list only through the per-file counts, hence only
on the multiset of files; the white/black distinction enters static_eval solely
through the add/subtract at the call site. -/
theorem c10_pawn_structure_color_independent :
    (∀ (pawn_files : List Nat) (b1 b2 : Bool),
       evaluate_pawn_structure pawn_files b1 = evaluate_pawn_structure pawn_files b2) ∧
    (∀ (l1 l2 : List Nat) (b : Bool), l1.Perm l2 →
       evaluate_pawn_structure l1 b = evaluate_pawn_structure l2 b) := by
  constructor
  · intro pf b1 b2
    rfl
  · intro l1 l2 b h
    have hc : file_counts l1 = file_counts l2 := funext fun i => h.count_eq i
    simp only [evaluate_pawn_structure, hc]

/-- C10 witness: the two orders of the same two pawn files score equally. -/
theorem c10_witness :
    evaluate_pawn_structure [0, 1] true = evaluate_pawn_structure [1, 0] true :=
  c10_pawn_structure_color_independent.2 [0, 1] [1, 0] true (by decide)

end Engine

namespace Engine

/-! Lemmas about compute_zobrist_key. -/

/-- Per-character agreement of the source's piece contribution with the claim's
piece-index table, for every character a board square can hold. -/
theorem zobrist_step_char (Z : Zobrist) (k i : Nat) (c : Char) (hc : c ∈ boardChars) :
    (if c ≠ ' ' then
       (if 0 ≤ piece_to_index c then k ^^^ Z.piece (piece_to_index c).toNat i else k)
     else k) =
    (match (claim_piece_index c).map (fun p => Z.piece p i) with
     | some z => k ^^^ z
     | none => k) := by
  fin_cases hc <;> rfl

/-- The square fold of compute_zobrist_key equals the XOR fold over the claim's
per-square contributions. -/
theorem zobrist_fold_eq (Z : Zobrist) (cr : Pos) :
    ∀ (l : List Nat) (k : Nat), (∀ i ∈ l, cr.squares i ∈ boardChars) →
    l.foldl (fun key i =>
      let c := cr.squares i
      if c ≠ ' ' then
        let idx := piece_to_index c
        if 0 ≤ idx then key ^^^ Z.piece idx.toNat i else key
      else key) k =
    (l.filterMap (fun i => (claim_piece_index (cr.squares i)).map (fun p => Z.piece p i))).foldl
      (fun a z => a ^^^ z) k := by
  intro l
  induction l with
  | nil =>
    intro k h
    rfl
  | cons i rest ih =>
    intro k h
    have hc : cr.squares i ∈ boardChars := h i (by simp)
    have hrest : ∀ j ∈ rest, cr.squares j ∈ boardChars := fun j hj => h j (by simp [hj])
    simp only [List.foldl_cons, List.filterMap_cons]
    rw [zobrist_step_char Z k i (cr.squares i) hc]
    rcases hopt : (claim_piece_index (cr.squares i)).map (fun p => Z.piece p i) with - | z
    · simp only [hopt]
      exact ih k hrest
    · simp only [hopt, List.foldl_cons]
      exact ih (k ^^^ z) hrest

/-- C8: for every position whose squares hold only piece characters or spaces,
compute_zobrist_key is exactly the claim's formula — the XOR of z_piece[p][sq]
over the occupied squares with piece indices 0..5 for white P,N,B,R,Q,K and
6..11 for black, XOR z_side exactly when Black is to move, XOR z_castle at the
4-bit castling mask (bit 0 wking, bit 1 wqueen, bit 2 bking, bit 3 bqueen), and
XOR z_ep at the en-passant file exactly when an en-passant target is set. -/
theorem c8_compute_zobrist_key_spec (Z : Zobrist) (cr : Pos)
    (hwf : ∀ i, i < 64 → cr.squares i ∈ boardChars) :
    compute_zobrist_key Z cr = spec_zobrist_key Z cr := by
  simp only [compute_zobrist_key, spec_zobrist_key]
  rw [zobrist_fold_eq Z cr (List.range 64) 0 (fun i hi => hwf i (List.mem_range.mp hi))]
  have hmask : ((if cr.wking then 1 else 0) ||| (if cr.wqueen then 2 else 0) |||
      (if cr.bking then 4 else 0) ||| (if cr.bqueen then 8 else 0) : Nat) =
      (if cr.wking then 1 else 0) + (if cr.wqueen then 2 else 0) +
      (if cr.bking then 4 else 0) + (if cr.bqueen then 8 else 0) := by
    cases cr.wking <;> cases cr.wqueen <;> cases cr.bking <;> cases cr.bqueen <;> rfl
  rw [hmask]
  cases hw : cr.whiteToPlay <;> simp [hw]

/-- C8 witness: a concrete well-formed position and concrete tables realise the
agreement. -/
theorem c8_compute_zobrist_key_spec_witness :
    (∀ i, i < 64 → c8Pos.squares i ∈ boardChars) ∧
    compute_zobrist_key Z1 c8Pos = spec_zobrist_key Z1 c8Pos :=
  ⟨by decide, c8_compute_zobrist_key_spec Z1 c8Pos (by decide)⟩

end Engine

namespace Engine

/-- C1: at an interior node whose probe hits an entry at least as deep as the
remaining search depth, the engine returns the stored score immediately for an
EXACT bound; for LOWER it returns the stored score when that score is at least
beta and otherwise raises alpha to at least the stored score; for UPPER it
returns the stored score when that score is at most alpha and otherwise lowers
beta to at most the stored score; and when alpha is at least beta after the
update it returns the stored score.  The last conjunct ties tt_cut to
solve_serial_engine under the probe-hit hypotheses. -/
theorem c1_tt_probe_cut (e : Super.TTEntry) (alpha beta : Int) :
    (e.bound = Super.Bound.EXACT → Super.tt_cut e alpha beta = Sum.inl e.score) ∧
    (e.bound = Super.Bound.LOWER →
      (e.score ≥ beta → Super.tt_cut e alpha beta = Sum.inl e.score) ∧
      (e.score < beta → beta ≤ max alpha e.score →
        Super.tt_cut e alpha beta = Sum.inl e.score) ∧
      (e.score < beta → max alpha e.score < beta →
        Super.tt_cut e alpha beta = Sum.inr (max alpha e.score, beta) ∧
        e.score ≤ max alpha e.score)) ∧
    (e.bound = Super.Bound.UPPER →
      (e.score ≤ alpha → Super.tt_cut e alpha beta = Sum.inl e.score) ∧
      (alpha < e.score → min beta e.score ≤ alpha →
        Super.tt_cut e alpha beta = Sum.inl e.score) ∧
      (alpha < e.score → alpha < min beta e.score →
        Super.tt_cut e alpha beta = Sum.inr (alpha, min beta e.score) ∧
        min beta e.score ≤ e.score)) ∧
    (∀ (R : Rules) (Z : Zobrist) (clock : Nat → Bool) (fuel : Nat) (cr : Pos)
        (w : Bool) (depth max_depth : Nat) (st : Super.SState) (s : Int),
      st.flag = false →
      (depth % 5 = 0 → clock st.tick = false) →
      Super.probe_tt st.tt (compute_zobrist_key Z cr) = some e →
      e.depth ≥ (max_depth : Int) - (depth : Int) →
      Super.tt_cut e alpha beta = Sum.inl s →
      (Super.solve_serial_engine R Z clock (fuel + 1) cr w depth max_depth alpha beta st).score
        = s ∧
      (Super.solve_serial_engine R Z clock (fuel + 1) cr w depth max_depth alpha beta st).pos
        = cr) := by
  refine ⟨?_, ?_, ?_, ?_⟩
  · intro hb
    simp [Super.tt_cut, hb]
  · intro hb
    refine ⟨?_, ?_, ?_⟩
    · intro hge
      simp [Super.tt_cut, hb, hge]
    · intro hlt hcutoff
      simp only [Super.tt_cut, hb]
      rw [if_neg (by omega), if_pos (by omega)]
    · intro hlt hopen
      simp only [Super.tt_cut, hb]
      rw [if_neg (by omega), if_neg (by omega)]
      exact ⟨rfl, le_max_right alpha e.score⟩
  · intro hb
    refine ⟨?_, ?_, ?_⟩
    · intro hle
      simp [Super.tt_cut, hb, hle]
    · intro hlt hcutoff
      simp only [Super.tt_cut, hb]
      rw [if_neg (by omega), if_pos (by omega)]
    · intro hlt hopen
      simp only [Super.tt_cut, hb]
      rw [if_neg (by omega), if_neg (by omega)]
      exact ⟨rfl, min_le_right beta e.score⟩
  · intro R Z clock fuel cr w depth max_depth st s hflag hclock hprobe hdepth hcut
    by_cases h5 : depth % 5 = 0
    · have hcl : clock st.tick = false := hclock h5
      have hst1 : (Super.timeCheck clock st).1.tt = st.tt := rfl
      simp only [Super.solve_serial_engine, hflag, h5, Super.timeCheck, hcl, hst1,
        Bool.false_eq_true, if_false, if_true, Bool.or_false, hprobe, hcut]
      rw [if_pos hdepth]
      exact ⟨rfl, rfl⟩
    · simp only [Super.solve_serial_engine, hflag, h5, Bool.false_eq_true, if_false,
        hprobe, hcut]
      rw [if_pos hdepth]
      exact ⟨rfl, rfl⟩

/-- C1 witness: an EXACT entry of score 42, at depth 5 against remaining depth
2, makes the search return 42 at once. -/
theorem c1_tt_probe_cut_witness :
    Super.tt_cut ttE 0 10 = Sum.inl 42 ∧
    (Super.solve_serial_engine R0 Z0 clockNever 1 emptyPos true 0 2 0 10 stE).score = 42 :=
  ⟨(c1_tt_probe_cut ttE 0 10).1 rfl,
   ((c1_tt_probe_cut ttE 0 10).2.2.2 R0 Z0 clockNever 0 emptyPos true 0 2 stE 42 rfl
      (fun _ => rfl) (by decide) (by decide) ((c1_tt_probe_cut ttE 0 10).1 rfl)).1⟩

end Engine

namespace Engine

/-- C5: the super engine's quiesce computes stand_pat = static_eval and returns
it at once when it reaches beta; with stand_pat below beta and no capture moves
it returns max(alpha, stand_pat) with the position untouched.  The prune
engine's quiesce contradicts this: its early `return static_eval(cr)` makes the
stand-pat/capture code unreachable, and on the empty board with alpha = 10,
beta = 20 it returns 0 where the claimed result is max(10, 0) = 10. -/
theorem c5_quiesce_standpat (dummy : Unit) :
    (∀ (R : Rules) (flag : Bool) (fuel : Nat) (cr : Pos) (alpha beta : Int),
       beta ≤ static_eval R cr →
       Super.quiesce R flag (fuel + 1) cr alpha beta = (static_eval R cr, cr)) ∧
    (∀ (R : Rules) (flag : Bool) (fuel : Nat) (cr : Pos) (alpha beta : Int),
       static_eval R cr < beta →
       (R.legalMoves cr).filter (fun m => m.capture ≠ ' ') = [] →
       Super.quiesce R flag (fuel + 1) cr alpha beta = (max alpha (static_eval R cr), cr)) ∧
    (Prune.quiesce R0 emptyPos 10 20 = (0, emptyPos) ∧
     static_eval R0 emptyPos = 0 ∧
     max (10 : Int) (static_eval R0 emptyPos) = 10 ∧ (0 : Int) ≠ 10) := by
  refine ⟨?_, ?_, ?_, ?_, ?_, ?_⟩
  · intro R flag fuel cr alpha beta hge
    simp only [Super.quiesce]
    rw [if_pos hge]
  · intro R flag fuel cr alpha beta hlt hcap
    simp only [Super.quiesce, hcap]
    rw [if_neg (not_le.mpr hlt)]
    simp only [List.map_nil, sortMoves, List.insertionSort, Super.quiesceLoop]
    rcases le_or_lt (static_eval R cr) alpha with h | h
    · rw [if_neg (not_lt.mpr h), max_eq_left h]
    · rw [if_pos h, max_eq_right (le_of_lt h)]
  · rfl
  · rfl
  · rfl
  · decide

/-- C5 witness: on the empty board, the super quiesce realises both the
stand-pat cutoff and the no-capture max(alpha, stand_pat) return. -/
theorem c5_quiesce_standpat_witness :
    Super.quiesce R0 false 1 emptyPos 0 (-5) = (static_eval R0 emptyPos, emptyPos) ∧
    Super.quiesce R0 false 1 emptyPos 10 20 = (max 10 (static_eval R0 emptyPos), emptyPos) :=
  ⟨(c5_quiesce_standpat ()).1 R0 false 0 emptyPos 0 (-5) (by decide),
   (c5_quiesce_standpat ()).2.1 R0 false 0 emptyPos 10 20 (by decide) (by decide)⟩

end Engine

namespace Engine

/-- C6 (counterexample): a node whose transposition-table entry records the
legal quiet move m1 as best_move still orders the queen capture mB first,
because order_moves — the ordering solve_serial_engine actually uses — never
consults the table. -/
theorem c6_tt_move_ordering_counterexample :
    Super.probe_tt tt3 (compute_zobrist_key Z0 emptyPos) =
      some ⟨0, 3, 7, m1, Super.Bound.EXACT⟩ ∧
    m1 ∈ R3.legalMoves emptyPos ∧
    order_moves emptyPos (R3.legalMoves emptyPos) = [mB, m1] ∧
    mB ≠ m1 := by
  refine ⟨by decide, by decide, ?_, by decide⟩
  have hs1 : score_move m1 emptyPos = 0 := by
    norm_num +decide [score_move, m1, emptyPos, captureBonus, positionalGainBlack,
      SpecialTag.isPromotion]
  have hs2 : score_move mB emptyPos = 9 := by
    norm_num +decide [score_move, mB, emptyPos, captureBonus, positionalGainBlack,
      SpecialTag.isPromotion]
  have hmap : (R3.legalMoves emptyPos).map (fun m => (score_move m emptyPos, m)) =
      [((0 : Rat), m1), ((9 : Rat), mB)] := by
    show [(score_move m1 emptyPos, m1), (score_move mB emptyPos, mB)] = [(0, m1), (9, mB)]
    rw [hs1, hs2]
  have hcmp : ¬ byScoreDesc ((0 : Rat), m1) ((9 : Rat), mB) := by
    norm_num [byScoreDesc]
  unfold order_moves sortMoves
  rw [hmap]
  simp only [List.insertionSort, List.orderedInsert]
  rw [if_neg hcmp]
  rfl

/-- C6 (amended): the super engine's interior-node search order is simply the
legal moves sorted by descending score_move — a permutation of the legal moves
that is non-increasing in score_move — and the transposition-table entry's
best_move receives no special placement (order_moves takes no table argument). -/
theorem c6_move_ordering_amended (cr : Pos) (moves : List Move) :
    (order_moves cr moves).Perm moves ∧
    List.Sorted (fun a b => score_move b cr ≤ score_move a cr) (order_moves cr moves) := by
  constructor
  · have h1 := (List.perm_insertionSort byScoreDesc
      (moves.map (fun m => (score_move m cr, m)))).map Prod.snd
    have h3 : (moves.map (fun m => (score_move m cr, m))).map Prod.snd = moves := by
      clear h1
      induction moves with
      | nil => rfl
      | cons m ms ih => simp only [List.map_cons, ih]
    rw [h3] at h1
    exact h1
  · have hs := List.sorted_insertionSort byScoreDesc (moves.map (fun m => (score_move m cr, m)))
    have hmem : ∀ x ∈ List.insertionSort byScoreDesc (moves.map (fun m => (score_move m cr, m))),
        x.1 = score_move x.2 cr := by
      intro x hx
      have hx' := (List.perm_insertionSort byScoreDesc
        (moves.map (fun m => (score_move m cr, m)))).mem_iff.mp hx
      rcases List.mem_map.mp hx' with ⟨m, hm, rfl⟩
      rfl
    show List.Pairwise (fun a b => score_move b cr ≤ score_move a cr)
      ((List.insertionSort byScoreDesc (moves.map (fun m => (score_move m cr, m)))).map Prod.snd)
    rw [List.pairwise_map]
    refine List.Pairwise.imp_of_mem ?_ hs
    intro a b ha hb hr
    have hha := hmem a ha
    have hhb := hmem b hb
    rw [← hha, ← hhb]
    exact hr

end Engine

namespace Engine

/-- Under a clear flag, a quiet clock, and no sufficiently deep TT hit, one step
of the super search is exactly its body, with the table unchanged. -/
theorem super_sse_reduces (R : Rules) (Z : Zobrist) (clock : Nat → Bool) (fuel : Nat)
    (cr : Pos) (w : Bool) (depth max_depth : Nat) (alpha beta : Int) (st : Super.SState)
    (hflag : st.flag = false)
    (hclock : depth % 5 = 0 → clock st.tick = false)
    (hprobe : ∀ e, Super.probe_tt st.tt (compute_zobrist_key Z cr) = some e →
       e.depth < (max_depth : Int) - (depth : Int)) :
    ∃ st1 : Super.SState, st1.flag = false ∧ st1.tt = st.tt ∧
      Super.solve_serial_engine R Z clock (fuel + 1) cr w depth max_depth alpha beta st =
        Super.sseBody R
          (fun p a b s =>
            Super.solve_serial_engine R Z clock fuel p (!w) (depth + 1) max_depth a b s)
          cr w depth max_depth (compute_zobrist_key Z cr) alpha alpha beta st1 := by
  by_cases h5 : depth % 5 = 0
  · have hcl := hclock h5
    refine ⟨⟨false, st.tick + 1, st.tt⟩, rfl, rfl, ?_⟩
    simp only [Super.solve_serial_engine, hflag, h5, Super.timeCheck, hcl, Bool.false_eq_true,
      if_false, if_true, Bool.or_false]
    rcases hp : Super.probe_tt st.tt (compute_zobrist_key Z cr) with - | e
    · simp [hp]
    · simp only [hp]
      rw [if_neg (not_le.mpr (hprobe e hp))]
  · refine ⟨st, hflag, rfl, ?_⟩
    simp only [Super.solve_serial_engine, hflag, h5, Bool.false_eq_true, if_false]
    rcases hp : Super.probe_tt st.tt (compute_zobrist_key Z cr) with - | e
    · simp [hp]
    · simp only [hp]
      rw [if_neg (not_le.mpr (hprobe e hp))]

/-- Under a clear flag and a quiet clock, one step of the prune search is
exactly its body. -/
theorem prune_sse_reduces (R : Rules) (clock : Nat → Bool) (fuel : Nat)
    (cr : Pos) (w : Bool) (depth max_depth : Nat) (alpha beta : Int) (st : Prune.PState)
    (hflag : st.flag = false)
    (hclock : depth % 5 = 0 → clock st.tick = false) :
    ∃ st1 : Prune.PState, st1.flag = false ∧ st1.pv_moves = st.pv_moves ∧
      st1.killer_moves = st.killer_moves ∧ st1.history_table = st.history_table ∧
      Prune.solve_serial_engine R clock (fuel + 1) cr w depth max_depth alpha beta st =
        Prune.sseBody R
          (fun p a b s =>
            Prune.solve_serial_engine R clock fuel p (!w) (depth + 1) max_depth a b s)
          cr w depth max_depth alpha beta st1 := by
  by_cases h5 : depth % 5 = 0
  · have hcl := hclock h5
    refine ⟨⟨false, st.tick + 1, st.pv_moves, st.killer_moves, st.history_table⟩,
      rfl, rfl, rfl, rfl, ?_⟩
    simp only [Prune.solve_serial_engine, hflag, h5, Prune.timeCheck, hcl, Bool.false_eq_true,
      if_false, if_true, Bool.or_false]
  · refine ⟨st, hflag, rfl, rfl, rfl, ?_⟩
    simp only [Prune.solve_serial_engine, hflag, h5, Bool.false_eq_true, if_false]

/-- C7: at a node whose position is drawn or terminal — with the cancellation
flag clear, the clock short of the limit, and (in the super engine) no TT
cutoff, which are the checks the code runs first — both engines return 0 for a
draw, -INF_SCORE + ply for a white checkmate, INF_SCORE - ply for a black
checkmate, and 0 for either stalemate, with INF_SCORE = 1000000 and ply the
depth argument (the distance from the root). -/
theorem c7_terminal_and_draw_scores :
    (∀ (R : Rules) (Z : Zobrist) (clock : Nat → Bool) (fuel : Nat) (cr : Pos) (w : Bool)
        (depth max_depth : Nat) (alpha beta : Int) (st : Super.SState),
      st.flag = false →
      (depth % 5 = 0 → clock st.tick = false) →
      (∀ e, Super.probe_tt st.tt (compute_zobrist_key Z cr) = some e →
        e.depth < (max_depth : Int) - (depth : Int)) →
      (R.isDraw cr = true →
        (Super.solve_serial_engine R Z clock (fuel + 1) cr w depth max_depth alpha beta
          st).score = 0) ∧
      (R.isDraw cr = false → R.terminal cr = TerminalKind.wcheckmate →
        (Super.solve_serial_engine R Z clock (fuel + 1) cr w depth max_depth alpha beta
          st).score = -INF_SCORE + (depth : Int)) ∧
      (R.isDraw cr = false → R.terminal cr = TerminalKind.bcheckmate →
        (Super.solve_serial_engine R Z clock (fuel + 1) cr w depth max_depth alpha beta
          st).score = INF_SCORE - (depth : Int)) ∧
      (R.isDraw cr = false → R.terminal cr = TerminalKind.wstalemate →
        (Super.solve_serial_engine R Z clock (fuel + 1) cr w depth max_depth alpha beta
          st).score = 0) ∧
      (R.isDraw cr = false → R.terminal cr = TerminalKind.bstalemate →
        (Super.solve_serial_engine R Z clock (fuel + 1) cr w depth max_depth alpha beta
          st).score = 0)) ∧
    (∀ (R : Rules) (clock : Nat → Bool) (fuel : Nat) (cr : Pos) (w : Bool)
        (depth max_depth : Nat) (alpha beta : Int) (st : Prune.PState),
      st.flag = false →
      (depth % 5 = 0 → clock st.tick = false) →
      (R.isDraw cr = true →
        (Prune.solve_serial_engine R clock (fuel + 1) cr w depth max_depth alpha beta
          st).score = 0) ∧
      (R.isDraw cr = false → R.terminal cr = TerminalKind.wcheckmate →
        (Prune.solve_serial_engine R clock (fuel + 1) cr w depth max_depth alpha beta
          st).score = -INF_SCORE + (depth : Int)) ∧
      (R.isDraw cr = false → R.terminal cr = TerminalKind.bcheckmate →
        (Prune.solve_serial_engine R clock (fuel + 1) cr w depth max_depth alpha beta
          st).score = INF_SCORE - (depth : Int)) ∧
      (R.isDraw cr = false → R.terminal cr = TerminalKind.wstalemate →
        (Prune.solve_serial_engine R clock (fuel + 1) cr w depth max_depth alpha beta
          st).score = 0) ∧
      (R.isDraw cr = false → R.terminal cr = TerminalKind.bstalemate →
        (Prune.solve_serial_engine R clock (fuel + 1) cr w depth max_depth alpha beta
          st).score = 0)) := by
  constructor
  · intro R Z clock fuel cr w depth max_depth alpha beta st hflag hclock hprobe
    obtain ⟨st1, -, -, heq⟩ :=
      super_sse_reduces R Z clock fuel cr w depth max_depth alpha beta st hflag hclock hprobe
    rw [heq]
    refine ⟨?_, ?_, ?_, ?_, ?_⟩
    · intro hdraw
      simp [Super.sseBody, hdraw]
    · intro hdraw hterm
      simp [Super.sseBody, hdraw, hterm]
    · intro hdraw hterm
      simp [Super.sseBody, hdraw, hterm]
    · intro hdraw hterm
      simp [Super.sseBody, hdraw, hterm]
    · intro hdraw hterm
      simp [Super.sseBody, hdraw, hterm]
  · intro R clock fuel cr w depth max_depth alpha beta st hflag hclock
    obtain ⟨st1, -, -, -, -, heq⟩ :=
      prune_sse_reduces R clock fuel cr w depth max_depth alpha beta st hflag hclock
    rw [heq]
    refine ⟨?_, ?_, ?_, ?_, ?_⟩
    · intro hdraw
      simp [Prune.sseBody, hdraw]
    · intro hdraw hterm
      simp [Prune.sseBody, hdraw, hterm]
    · intro hdraw hterm
      simp [Prune.sseBody, hdraw, hterm]
    · intro hdraw hterm
      simp [Prune.sseBody, hdraw, hterm]
    · intro hdraw hterm
      simp [Prune.sseBody, hdraw, hterm]

/-- C7 witness: an always-drawn position scores 0 in the super engine, and a
white-checkmate position at the root scores -INF_SCORE in the prune engine. -/
theorem c7_terminal_and_draw_scores_witness :
    (Super.solve_serial_engine RDraw Z0 clockNever 1 emptyPos true 0 1
      (-INF_SCORE) INF_SCORE st0).score = 0 ∧
    (Prune.solve_serial_engine RMate clockNever 1 emptyPos true 0 1
      (-INF_SCORE) INF_SCORE pst0).score = -INF_SCORE + ((0 : Nat) : Int) :=
  ⟨(c7_terminal_and_draw_scores.1 RDraw Z0 clockNever 0 emptyPos true 0 1
      (-INF_SCORE) INF_SCORE st0 rfl (fun _ => rfl)
      (by
        intro e he
        rw [show Super.probe_tt st0.tt (compute_zobrist_key Z0 emptyPos) =
            some ⟨0, -1, 0, invalidMove, Super.Bound.EXACT⟩ from by decide] at he
        cases he
        decide)).1 rfl,
   (c7_terminal_and_draw_scores.2 RMate clockNever 0 emptyPos true 0 1
      (-INF_SCORE) INF_SCORE pst0 rfl (fun _ => rfl)).2.1 rfl rfl⟩

end Engine

namespace Engine

/-- The white move loop never changes beta: a normal completion carries the
entry beta. -/
theorem super_searchLoop_white_betaF (R : Rules)
    (recurse : Pos → Int → Int → Super.SState → Super.SseRes) :
    ∀ (moves : List Move) (pos : Pos) (st : Super.SState) (alpha beta best : Int)
      (lb : Option Move) (b' a' b2 : Int) (lb' : Option Move) (p' : Pos)
      (st' : Super.SState),
    Super.searchLoop R recurse true moves pos st alpha beta best lb =
      Super.LoopRes.done b' a' b2 lb' p' st' → b2 = beta := by
  intro moves
  induction moves with
  | nil =>
    intro pos st alpha beta best lb b' a' b2 lb' p' st' h
    simp only [Super.searchLoop] at h
    cases h
    rfl
  | cons m rest ih =>
    intro pos st alpha beta best lb b' a' b2 lb' p' st' h
    simp only [Super.searchLoop] at h
    by_cases hf : (recurse (R.push pos m) alpha beta st).st.flag
    · rw [if_pos hf] at h
      exact Super.LoopRes.noConfusion h
    · rw [if_neg hf] at h
      by_cases himp : (recurse (R.push pos m) alpha beta st).score > best
      · rw [if_pos himp] at h
        by_cases hcut : max alpha (recurse (R.push pos m) alpha beta st).score ≥ beta
        · rw [if_pos hcut] at h
          cases h
          rfl
        · rw [if_neg hcut] at h
          exact ih _ _ _ _ _ _ _ _ _ _ _ _ h
      · rw [if_neg himp] at h
        by_cases hcut : alpha ≥ beta
        · rw [if_pos hcut] at h
          cases h
          rfl
        · rw [if_neg hcut] at h
          exact ih _ _ _ _ _ _ _ _ _ _ _ _ h

/-- The black move loop keeps beta at or below the best score (beta is lowered
to min(beta, best) on every improvement), provided it starts that way. -/
theorem super_searchLoop_black_betaF (R : Rules)
    (recurse : Pos → Int → Int → Super.SState → Super.SseRes) :
    ∀ (moves : List Move) (pos : Pos) (st : Super.SState) (alpha beta best : Int)
      (lb : Option Move) (b' a' b2 : Int) (lb' : Option Move) (p' : Pos)
      (st' : Super.SState),
    beta ≤ best →
    Super.searchLoop R recurse false moves pos st alpha beta best lb =
      Super.LoopRes.done b' a' b2 lb' p' st' → b2 ≤ b' := by
  intro moves
  induction moves with
  | nil =>
    intro pos st alpha beta best lb b' a' b2 lb' p' st' hinv h
    simp only [Super.searchLoop] at h
    cases h
    exact hinv
  | cons m rest ih =>
    intro pos st alpha beta best lb b' a' b2 lb' p' st' hinv h
    simp only [Super.searchLoop] at h
    by_cases hf : (recurse (R.push pos m) alpha beta st).st.flag
    · rw [if_pos hf] at h
      exact Super.LoopRes.noConfusion h
    · rw [if_neg hf] at h
      by_cases himp : (recurse (R.push pos m) alpha beta st).score < best
      · rw [if_pos himp] at h
        by_cases hcut : min beta (recurse (R.push pos m) alpha beta st).score ≤ alpha
        · rw [if_pos hcut] at h
          cases h
          exact min_le_right _ _
        · rw [if_neg hcut] at h
          exact ih _ _ _ _ _ _ _ _ _ _ _ _ (min_le_right _ _) h
      · rw [if_neg himp] at h
        by_cases hcut : beta ≤ alpha
        · rw [if_pos hcut] at h
          cases h
          exact hinv
        · rw [if_neg hcut] at h
          exact ih _ _ _ _ _ _ _ _ _ _ _ _ hinv h

/-- A cut result of the super move loop carries a set flag. -/
theorem super_searchLoop_cut_flag (R : Rules)
    (recurse : Pos → Int → Int → Super.SState → Super.SseRes) :
    ∀ (w : Bool) (moves : List Move) (pos : Pos) (st : Super.SState)
      (alpha beta best : Int) (lb : Option Move) (s : Int) (p' : Pos)
      (st' : Super.SState),
    Super.searchLoop R recurse w moves pos st alpha beta best lb =
      Super.LoopRes.cut s p' st' → st'.flag = true := by
  intro w moves
  induction moves with
  | nil =>
    intro pos st alpha beta best lb s p' st' h
    simp only [Super.searchLoop] at h
    exact Super.LoopRes.noConfusion h
  | cons m rest ih =>
    intro pos st alpha beta best lb s p' st' h
    simp only [Super.searchLoop] at h
    by_cases hf : (recurse (R.push pos m) alpha beta st).st.flag
    · rw [if_pos hf] at h
      cases h
      exact hf
    · rw [if_neg hf] at h
      cases w
      · simp only [Bool.false_eq_true, if_false] at h
        by_cases himp : (recurse (R.push pos m) alpha beta st).score < best
        · rw [if_pos himp] at h
          by_cases hcut : min beta (recurse (R.push pos m) alpha beta st).score ≤ alpha
          · rw [if_pos hcut] at h
            exact Super.LoopRes.noConfusion h
          · rw [if_neg hcut] at h
            exact ih _ _ _ _ _ _ _ _ _ h
        · rw [if_neg himp] at h
          by_cases hcut : beta ≤ alpha
          · rw [if_pos hcut] at h
            exact Super.LoopRes.noConfusion h
          · rw [if_neg hcut] at h
            exact ih _ _ _ _ _ _ _ _ _ h
      · simp only [if_true] at h
        by_cases himp : (recurse (R.push pos m) alpha beta st).score > best
        · rw [if_pos himp] at h
          by_cases hcut : max alpha (recurse (R.push pos m) alpha beta st).score ≥ beta
          · rw [if_pos hcut] at h
            exact Super.LoopRes.noConfusion h
          · rw [if_neg hcut] at h
            exact ih _ _ _ _ _ _ _ _ _ h
        · rw [if_neg himp] at h
          by_cases hcut : alpha ≥ beta
          · rw [if_pos hcut] at h
            exact Super.LoopRes.noConfusion h
          · rw [if_neg hcut] at h
            exact ih _ _ _ _ _ _ _ _ _ h

end Engine

namespace Engine

/-- C2 (counterexample): a black-to-move node entered with the window
(-1000, 1000) completes with best score 80 — strictly inside the window, EXACT
by the claim's classification — yet stores bound LOWER, because the code
compares best_score against the loop-lowered beta (min(1000, 80) = 80) instead
of the entered beta. -/
theorem c2_tt_store_counterexample :
    ((Super.solve_serial_engine R2 Z0 clockNever 2 emptyPos false 0 1
        (-1000) 1000 st0).st.tt
      (Super.ttIndex (compute_zobrist_key Z0 emptyPos))).bound = Super.Bound.LOWER ∧
    ((Super.solve_serial_engine R2 Z0 clockNever 2 emptyPos false 0 1
        (-1000) 1000 st0).st.tt
      (Super.ttIndex (compute_zobrist_key Z0 emptyPos))).depth = 1 ∧
    (Super.solve_serial_engine R2 Z0 clockNever 2 emptyPos false 0 1
        (-1000) 1000 st0).score = 80 ∧
    claim_bound 80 (-1000) 1000 = Super.Bound.EXACT ∧
    Super.Bound.LOWER ≠ Super.Bound.EXACT :=
  ⟨by decide, by decide, by decide, by decide, by decide⟩

/-- C2 (amended): store_tt is depth-preferred (the slot changes only when the
new depth exceeds the resident depth), and a node that completes its move loop
with a clear flag either leaves the table as it was or stores, through
store_tt, an entry at the position's key whose depth is max_depth - ply
(depth-to-go), whose score is the returned best score, and whose bound is: at a
white node (with no TT window narrowing), exactly the claim's classification
against the entered alpha and beta; at a black node, UPPER when the best score
is at most the entered alpha and otherwise always LOWER — never EXACT, because
the loop lowers beta to min(beta, best) before the comparison. -/
theorem c2_tt_store_amended :
    (∀ (tt : Super.TT) (key : Nat) (d s : Int) (b : Super.Bound) (bm : Move),
      (d ≤ (tt (Super.ttIndex key)).depth → Super.store_tt tt key d s b bm = tt) ∧
      (d > (tt (Super.ttIndex key)).depth →
        Super.store_tt tt key d s b bm =
          fun j => if j = Super.ttIndex key then ⟨key, d, s, bm, b⟩ else tt j)) ∧
    (∀ (R : Rules) (Z : Zobrist) (clock : Nat → Bool) (fuel : Nat) (cr : Pos) (w : Bool)
        (depth max_depth : Nat) (alpha beta : Int) (st : Super.SState),
      st.flag = false →
      (depth % 5 = 0 → clock st.tick = false) →
      (∀ e, Super.probe_tt st.tt (compute_zobrist_key Z cr) = some e →
        e.depth < (max_depth : Int) - (depth : Int)) →
      beta ≤ INF_SCORE →
      (Super.solve_serial_engine R Z clock (fuel + 1) cr w depth max_depth alpha beta
        st).st.flag = false →
      ((Super.solve_serial_engine R Z clock (fuel + 1) cr w depth max_depth alpha beta
          st).st.tt = st.tt ∨
       ∃ (ttPre : Super.TT) (bm : Move),
         (Super.solve_serial_engine R Z clock (fuel + 1) cr w depth max_depth alpha beta
           st).st.tt =
           Super.store_tt ttPre (compute_zobrist_key Z cr)
             ((max_depth : Int) - (depth : Int))
             (Super.solve_serial_engine R Z clock (fuel + 1) cr w depth max_depth alpha beta
               st).score
             (if w then
                claim_bound
                  (Super.solve_serial_engine R Z clock (fuel + 1) cr w depth max_depth alpha
                    beta st).score alpha beta
              else if (Super.solve_serial_engine R Z clock (fuel + 1) cr w depth max_depth
                  alpha beta st).score ≤ alpha then Super.Bound.UPPER
              else Super.Bound.LOWER)
             bm)) := by
  constructor
  · intro tt key d s b bm
    constructor
    · intro hle
      simp only [Super.store_tt]
      rw [if_neg (not_lt.mpr hle)]
    · intro hgt
      simp only [Super.store_tt]
      rw [if_pos hgt]
  · intro R Z clock fuel cr w depth max_depth alpha beta st hflag hclock hprobe hbeta hresflag
    obtain ⟨st1, hst1flag, hst1tt, heq⟩ :=
      super_sse_reduces R Z clock fuel cr w depth max_depth alpha beta st hflag hclock hprobe
    rw [heq] at hresflag ⊢
    by_cases hdraw : R.isDraw cr = true
    · exact Or.inl (by simp [Super.sseBody, hdraw, hst1tt])
    · simp only [Bool.not_eq_true] at hdraw
      rcases hterm : R.terminal cr with - | - | - | - | -
      · by_cases hdm : depth = max_depth
        · exact Or.inl (by simp [Super.sseBody, hdraw, hterm, hdm, hst1tt])
        · by_cases hleg : R.legalMoves cr = []
          · exact Or.inl (by simp [Super.sseBody, hdraw, hterm, hdm, hleg, hst1tt])
          · simp only [Super.sseBody, hdraw, hterm, Bool.false_eq_true, if_false,
              if_neg hdm, if_neg hleg] at hresflag ⊢
            split at hresflag
            · rename_i cutS pC stC hl
              have hcf := super_searchLoop_cut_flag R _ w _ _ _ _ _ _ _ _ _ _ hl
              simp only [hcf] at hresflag
              exact Bool.noConfusion hresflag
            · rename_i best aF bF lbm pD stD hl
              right
              refine ⟨stD.tt, lbm.getD invalidMove, ?_⟩
              cases w
              · have hbF : bF ≤ best :=
                  super_searchLoop_black_betaF R _ _ _ _ _ _ _ _ _ _ _ _ _ _ hbeta hl
                by_cases hub : best ≤ alpha
                · simp only [if_pos hub, Bool.false_eq_true, if_false]
                · simp only [if_neg hub, Bool.false_eq_true, if_false]
                  rw [if_pos hbF]
              · have hbF : bF = beta :=
                  super_searchLoop_white_betaF R _ _ _ _ _ _ _ _ _ _ _ _ _ _ hl
                subst hbF
                simp only [if_true, claim_bound]
      · exact Or.inl (by simp [Super.sseBody, hdraw, hterm, hst1tt])
      · exact Or.inl (by simp [Super.sseBody, hdraw, hterm, hst1tt])
      · exact Or.inl (by simp [Super.sseBody, hdraw, hterm, hst1tt])
      · exact Or.inl (by simp [Super.sseBody, hdraw, hterm, hst1tt])
  
end Engine

namespace Engine

/-- C2 witness: the black-node counterexample run itself satisfies the amended
store description (it takes the LOWER branch of the black classification). -/
theorem c2_tt_store_amended_witness :
    (Super.solve_serial_engine R2 Z0 clockNever (1 + 1) emptyPos false 0 1 (-1000) 1000
      st0).st.tt = st0.tt ∨
    ∃ (ttPre : Super.TT) (bm : Move),
      (Super.solve_serial_engine R2 Z0 clockNever (1 + 1) emptyPos false 0 1 (-1000) 1000
        st0).st.tt =
        Super.store_tt ttPre (compute_zobrist_key Z0 emptyPos)
          (((1 : Nat) : Int) - ((0 : Nat) : Int))
          (Super.solve_serial_engine R2 Z0 clockNever (1 + 1) emptyPos false 0 1 (-1000) 1000
            st0).score
          (if false then
            claim_bound (Super.solve_serial_engine R2 Z0 clockNever (1 + 1) emptyPos false 0 1
              (-1000) 1000 st0).score (-1000) 1000
           else if (Super.solve_serial_engine R2 Z0 clockNever (1 + 1) emptyPos false 0 1
              (-1000) 1000 st0).score ≤ (-1000) then Super.Bound.UPPER
           else Super.Bound.LOWER)
          bm :=
  c2_tt_store_amended.2 R2 Z0 clockNever 1 emptyPos false 0 1 (-1000) 1000 st0 rfl
    (fun _ => rfl)
    (by
      intro e he
      rw [show Super.probe_tt st0.tt (compute_zobrist_key Z0 emptyPos) =
          some ⟨0, -1, 0, invalidMove, Super.Bound.EXACT⟩ from by decide] at he
      cases he
      decide)
    (by decide)
    (by decide)

end Engine

namespace Engine

/-! Position-preservation lemmas (push/pop balance). -/

/-- The quiesce capture loop returns the position it was given, provided pop
undoes push and the recursive call preserves its position. -/
theorem super_quiesceLoop_pos (R : Rules)
    (pop_push : ∀ p m, R.pop (R.push p m) m = p)
    (recurseQ : Pos → Int → Int → Int × Pos)
    (hrec : ∀ p a b, (recurseQ p a b).2 = p) (flag : Bool) :
    ∀ (moves : List Move) (pos : Pos) (alpha beta : Int),
      (Super.quiesceLoop R recurseQ flag moves pos alpha beta).2 = pos := by
  intro moves
  induction moves with
  | nil =>
    intro pos alpha beta
    rfl
  | cons m rest ih =>
    intro pos alpha beta
    simp only [Super.quiesceLoop]
    have hpos1 : R.pop (recurseQ (R.push pos m) (-beta) (-alpha)).2 m = pos := by
      rw [hrec]
      exact pop_push pos m
    by_cases hfl : flag = true
    · rw [if_pos hfl]
      exact hpos1
    · rw [if_neg hfl]
      by_cases hge : -(recurseQ (R.push pos m) (-beta) (-alpha)).1 ≥ beta
      · rw [if_pos hge]
        exact hpos1
      · rw [if_neg hge]
        by_cases hgt : -(recurseQ (R.push pos m) (-beta) (-alpha)).1 > alpha
        · rw [if_pos hgt, hpos1]
          exact ih pos _ beta
        · rw [if_neg hgt, hpos1]
          exact ih pos alpha beta

/-- quiesce returns the position it was given. -/
theorem super_quiesce_pos (R : Rules)
    (pop_push : ∀ p m, R.pop (R.push p m) m = p) (flag : Bool) :
    ∀ (fuel : Nat) (pos : Pos) (alpha beta : Int),
      (Super.quiesce R flag fuel pos alpha beta).2 = pos := by
  intro fuel
  induction fuel with
  | zero =>
    intro pos alpha beta
    rfl
  | succ n ih =>
    intro pos alpha beta
    simp only [Super.quiesce]
    by_cases hsp : static_eval R pos ≥ beta
    · rw [if_pos hsp]
    · rw [if_neg hsp]
      exact super_quiesceLoop_pos R pop_push _ (fun p a b => ih p a b) flag _ _ _ _

/-- The super move loop returns the position it was given. -/
theorem super_searchLoop_pos (R : Rules)
    (pop_push : ∀ p m, R.pop (R.push p m) m = p)
    (recurse : Pos → Int → Int → Super.SState → Super.SseRes)
    (hrec : ∀ p a b s, (recurse p a b s).pos = p) (w : Bool) :
    ∀ (moves : List Move) (pos : Pos) (st : Super.SState) (alpha beta best : Int)
      (lb : Option Move),
      (Super.searchLoop R recurse w moves pos st alpha beta best lb).position = pos := by
  intro moves
  induction moves with
  | nil =>
    intro pos st alpha beta best lb
    rfl
  | cons m rest ih =>
    intro pos st alpha beta best lb
    simp only [Super.searchLoop]
    have hpos1 : R.pop (recurse (R.push pos m) alpha beta st).pos m = pos := by
      rw [hrec]
      exact pop_push pos m
    by_cases hf : (recurse (R.push pos m) alpha beta st).st.flag
    · rw [if_pos hf]
      exact hpos1
    · rw [if_neg hf]
      cases w
      · simp only [Bool.false_eq_true, if_false]
        by_cases himp : (recurse (R.push pos m) alpha beta st).score < best
        · rw [if_pos himp]
          by_cases hcut : min beta (recurse (R.push pos m) alpha beta st).score ≤ alpha
          · rw [if_pos hcut]
            exact hpos1
          · rw [if_neg hcut, hpos1]
            exact ih pos _ alpha _ _ _
        · rw [if_neg himp]
          by_cases hcut : beta ≤ alpha
          · rw [if_pos hcut]
            exact hpos1
          · rw [if_neg hcut, hpos1]
            exact ih pos _ alpha beta best lb
      · simp only [if_true]
        by_cases himp : (recurse (R.push pos m) alpha beta st).score > best
        · rw [if_pos himp]
          by_cases hcut : max alpha (recurse (R.push pos m) alpha beta st).score ≥ beta
          · rw [if_pos hcut]
            exact hpos1
          · rw [if_neg hcut, hpos1]
            exact ih pos _ _ beta _ _
        · rw [if_neg himp]
          by_cases hcut : alpha ≥ beta
          · rw [if_pos hcut]
            exact hpos1
          · rw [if_neg hcut, hpos1]
            exact ih pos _ alpha beta best lb

/-- The super search body returns the position it was given. -/
theorem super_sseBody_pos (R : Rules)
    (pop_push : ∀ p m, R.pop (R.push p m) m = p)
    (recurse : Pos → Int → Int → Super.SState → Super.SseRes)
    (hrec : ∀ p a b s, (recurse p a b s).pos = p)
    (cr : Pos) (w : Bool) (depth max_depth : Nat) (key : Nat)
    (alpha_original alpha beta : Int) (st1 : Super.SState) :
    (Super.sseBody R recurse cr w depth max_depth key alpha_original alpha beta st1).pos
      = cr := by
  simp only [Super.sseBody]
  by_cases hdraw : R.isDraw cr = true
  · simp [hdraw]
  · simp only [Bool.not_eq_true] at hdraw
    rcases hterm : R.terminal cr with - | - | - | - | -
    · by_cases hdm : depth = max_depth
      · simp [hdraw, hterm, hdm]
      · by_cases hleg : R.legalMoves cr = []
        · simp [hdraw, hterm, hdm, hleg]
        · simp only [hdraw, hterm, Bool.false_eq_true, if_false, if_neg hdm, if_neg hleg]
          have hp := super_searchLoop_pos R pop_push recurse hrec w
            (order_moves cr (R.legalMoves cr)) cr st1 alpha beta
            (if w = true then -INF_SCORE else INF_SCORE) none
          split
          · rename_i s p st2 hl
            rw [hl] at hp
            exact hp
          · rename_i best aF bF lbm p st2 hl
            rw [hl] at hp
            exact hp
    · simp [hdraw, hterm]
    · simp [hdraw, hterm]
    · simp [hdraw, hterm]
    · simp [hdraw, hterm]

/-- The super search returns the position it was given. -/
theorem super_sse_pos (R : Rules)
    (pop_push : ∀ p m, R.pop (R.push p m) m = p) (Z : Zobrist) (clock : Nat → Bool) :
    ∀ (fuel : Nat) (cr : Pos) (w : Bool) (depth max_depth : Nat) (alpha beta : Int)
      (st : Super.SState),
      (Super.solve_serial_engine R Z clock fuel cr w depth max_depth alpha beta st).pos
        = cr := by
  intro fuel
  induction fuel with
  | zero =>
    intro cr w depth max_depth alpha beta st
    rfl
  | succ n ih =>
    intro cr w depth max_depth alpha beta st
    simp only [Super.solve_serial_engine]
    by_cases hf : st.flag = true
    · rw [if_pos hf]
    · rw [if_neg hf]
      by_cases h5 : depth % 5 = 0
      · simp only [h5, if_true]
        by_cases hfire : (Super.timeCheck clock st).2 = true
        · rw [if_pos hfire]
        · rw [if_neg hfire]
          split
          · rfl
          · exact super_sseBody_pos R pop_push _ (fun p a b s => ih p (!w) (depth + 1)
              max_depth a b s) cr w depth max_depth _ _ _ _ _
      · simp only [h5, Bool.false_eq_true, if_false]
        split
        · rfl
        · exact super_sseBody_pos R pop_push _ (fun p a b s => ih p (!w) (depth + 1)
            max_depth a b s) cr w depth max_depth _ _ _ _ _

/-- The super deepening loop returns the position it was given. -/
theorem super_solveLoop_pos (R : Rules)
    (pop_push : ∀ p m, R.pop (R.push p m) m = p) (Z : Zobrist) (clock : Nat → Bool)
    (w : Bool) :
    ∀ (iters current_depth : Nat) (best : Option Move) (found : Bool)
      (st : Super.SState) (pos : Pos),
      (Super.solveLoop R Z clock w iters current_depth best found st pos).2.2.2 = pos := by
  intro iters
  induction iters with
  | zero =>
    intro current_depth best found st pos
    rfl
  | succ n ih =>
    intro current_depth best found st pos
    simp only [Super.solveLoop]
    by_cases hf : st.flag = true
    · rw [if_pos hf]
    · rw [if_neg hf]
      have hr := super_sse_pos R pop_push Z clock (current_depth + 1) pos w 0 current_depth
        (-INF_SCORE) INF_SCORE st
      by_cases hfl : (Super.solve_serial_engine R Z clock (current_depth + 1) pos w 0
          current_depth (-INF_SCORE) INF_SCORE st).st.flag = true
      · rw [if_pos hfl]
        exact hr
      · rw [if_neg hfl, hr]
        exact ih (current_depth + 1) _ true _ pos

/-- Super solve returns the position it was given. -/
theorem super_solve_pos (R : Rules)
    (pop_push : ∀ p m, R.pop (R.push p m) m = p) (Z : Zobrist) (clock : Nat → Bool)
    (cr : Pos) (w : Bool) (st_in : Super.SState) :
    (Super.solve R Z clock cr w st_in).2.1 = cr := by
  simp only [Super.solve]
  have hl := super_solveLoop_pos R pop_push Z clock w Super.MAX_DEPTH 1 none false
    ⟨false, 0, st_in.tt⟩ cr
  by_cases hfnd : (Super.solveLoop R Z clock w Super.MAX_DEPTH 1 none false
      ⟨false, 0, st_in.tt⟩ cr).2.1 = true
  · rw [if_pos hfnd]
    exact hl
  · rw [if_neg hfnd]
    split
    · exact hl
    · exact hl

end Engine

namespace Engine

/-- The prune move loop returns the position it was given. -/
theorem prune_searchLoop_pos (R : Rules)
    (pop_push : ∀ p m, R.pop (R.push p m) m = p)
    (recurse : Pos → Int → Int → Prune.PState → Prune.PSseRes)
    (hrec : ∀ p a b s, (recurse p a b s).pos = p) (w : Bool) (depth : Nat) :
    ∀ (moves : List Move) (pos : Pos) (st : Prune.PState) (alpha beta best : Int)
      (out : Option Move),
      (Prune.searchLoop R recurse w depth moves pos st alpha beta best out).position
        = pos := by
  intro moves
  induction moves with
  | nil =>
    intro pos st alpha beta best out
    rfl
  | cons m rest ih =>
    intro pos st alpha beta best out
    simp only [Prune.searchLoop]
    have hpos1 : R.pop (recurse (R.push pos m) alpha beta st).pos m = pos := by
      rw [hrec]
      exact pop_push pos m
    by_cases hf : (recurse (R.push pos m) alpha beta st).st.flag
    · rw [if_pos hf]
      exact hpos1
    · rw [if_neg hf]
      cases w
      · simp only [Bool.false_eq_true, if_false]
        by_cases himp : (recurse (R.push pos m) alpha beta st).score < best
        · rw [if_pos himp]
          by_cases hcut : min beta (recurse (R.push pos m) alpha beta st).score ≤ alpha
          · rw [if_pos hcut]
            exact hpos1
          · rw [if_neg hcut, hpos1]
            exact ih pos _ alpha _ _ _
        · rw [if_neg himp]
          by_cases hcut : beta ≤ alpha
          · rw [if_pos hcut]
            exact hpos1
          · rw [if_neg hcut, hpos1]
            exact ih pos _ alpha beta best out
      · simp only [if_true]
        by_cases himp : (recurse (R.push pos m) alpha beta st).score > best
        · rw [if_pos himp]
          by_cases hcut : beta ≤ max alpha (recurse (R.push pos m) alpha beta st).score
          · rw [if_pos hcut]
            exact hpos1
          · rw [if_neg hcut, hpos1]
            exact ih pos _ _ beta _ _
        · rw [if_neg himp]
          by_cases hcut : beta ≤ alpha
          · rw [if_pos hcut]
            exact hpos1
          · rw [if_neg hcut, hpos1]
            exact ih pos _ alpha beta best out

/-- The prune search body returns the position it was given. -/
theorem prune_sseBody_pos (R : Rules)
    (pop_push : ∀ p m, R.pop (R.push p m) m = p)
    (recurse : Pos → Int → Int → Prune.PState → Prune.PSseRes)
    (hrec : ∀ p a b s, (recurse p a b s).pos = p)
    (cr : Pos) (w : Bool) (depth max_depth : Nat) (alpha beta : Int)
    (st1 : Prune.PState) :
    (Prune.sseBody R recurse cr w depth max_depth alpha beta st1).pos = cr := by
  simp only [Prune.sseBody]
  by_cases hdraw : R.isDraw cr = true
  · simp [hdraw]
  · simp only [Bool.not_eq_true] at hdraw
    rcases hterm : R.terminal cr with - | - | - | - | -
    · by_cases hdm : depth = max_depth
      · simp [hdraw, hterm, hdm, Prune.quiesce]
      · by_cases hleg : R.legalMoves cr = []
        · simp [hdraw, hterm, hdm, hleg]
        · simp only [hdraw, hterm, Bool.false_eq_true, if_false, if_neg hdm, if_neg hleg]
          have hp := prune_searchLoop_pos R pop_push recurse hrec w depth
            ((Prune.prune_order st1 depth cr (R.legalMoves cr)).map Prod.snd) cr st1
            alpha beta (if w = true then -INF_SCORE else INF_SCORE) none
          split
          · rename_i s p st2 hl
            rw [hl] at hp
            exact hp
          · rename_i best out p st2 hl
            rw [hl] at hp
            exact hp
    · simp [hdraw, hterm]
    · simp [hdraw, hterm]
    · simp [hdraw, hterm]
    · simp [hdraw, hterm]

/-- The prune search returns the position it was given. -/
theorem prune_sse_pos (R : Rules)
    (pop_push : ∀ p m, R.pop (R.push p m) m = p) (clock : Nat → Bool) :
    ∀ (fuel : Nat) (cr : Pos) (w : Bool) (depth max_depth : Nat) (alpha beta : Int)
      (st : Prune.PState),
      (Prune.solve_serial_engine R clock fuel cr w depth max_depth alpha beta st).pos
        = cr := by
  intro fuel
  induction fuel with
  | zero =>
    intro cr w depth max_depth alpha beta st
    rfl
  | succ n ih =>
    intro cr w depth max_depth alpha beta st
    simp only [Prune.solve_serial_engine]
    by_cases hf : st.flag = true
    · rw [if_pos hf]
    · rw [if_neg hf]
      by_cases h5 : depth % 5 = 0
      · simp only [h5, if_true]
        by_cases hfire : (Prune.timeCheck clock st).2 = true
        · rw [if_pos hfire]
        · rw [if_neg hfire]
          exact prune_sseBody_pos R pop_push _ (fun p a b s => ih p (!w) (depth + 1)
            max_depth a b s) cr w depth max_depth _ _ _
      · simp only [h5, Bool.false_eq_true, if_false]
        exact prune_sseBody_pos R pop_push _ (fun p a b s => ih p (!w) (depth + 1)
          max_depth a b s) cr w depth max_depth _ _ _

/-- The prune deepening loop returns the position it was given. -/
theorem prune_solveLoop_pos (R : Rules)
    (pop_push : ∀ p m, R.pop (R.push p m) m = p) (clock : Nat → Bool) (w : Bool) :
    ∀ (iters current_depth : Nat) (best : Option Move) (found : Bool)
      (st : Prune.PState) (pos : Pos),
      (Prune.solveLoop R clock w iters current_depth best found st pos).2.2.2 = pos := by
  intro iters
  induction iters with
  | zero =>
    intro current_depth best found st pos
    rfl
  | succ n ih =>
    intro current_depth best found st pos
    simp only [Prune.solveLoop]
    by_cases hf : st.flag = true
    · rw [if_pos hf]
    · rw [if_neg hf]
      have hr := prune_sse_pos R pop_push clock (current_depth + 1) pos w 0 current_depth
        (-INF_SCORE) INF_SCORE st
      by_cases hfl : (Prune.solve_serial_engine R clock (current_depth + 1) pos w 0
          current_depth (-INF_SCORE) INF_SCORE st).st.flag = true
      · rw [if_pos hfl]
        exact hr
      · rw [if_neg hfl, hr]
        exact ih (current_depth + 1) _ true _ pos

/-- Prune solve returns the position it was given. -/
theorem prune_solve_pos (R : Rules)
    (pop_push : ∀ p m, R.pop (R.push p m) m = p) (clock : Nat → Bool)
    (cr : Pos) (w : Bool) (st_in : Prune.PState) :
    (Prune.solve R clock cr w st_in).2.1 = cr := by
  simp only [Prune.solve]
  have hl := prune_solveLoop_pos R pop_push clock w Prune.MAX_DEPTH 1 none false
    ⟨false, 0, [], st_in.killer_moves, st_in.history_table⟩ cr
  by_cases hfnd : (Prune.solveLoop R clock w Prune.MAX_DEPTH 1 none false
      ⟨false, 0, [], st_in.killer_moves, st_in.history_table⟩ cr).2.1 = true
  · rw [if_pos hfnd]
    exact hl
  · rw [if_neg hfnd]
    split
    · exact hl
    · exact hl

end Engine

namespace Engine

/-- C3: whenever pop undoes push, every entry point of both engines returns the
position exactly as it received it — solve, the recursive search at any depth
and window (including the cancellation return paths, which pop before
returning), and quiescence. -/
theorem c3_push_pop_balance (R : Rules)
    (pop_push : ∀ p m, R.pop (R.push p m) m = p) :
    (∀ (Z : Zobrist) (clock : Nat → Bool) (cr : Pos) (w : Bool) (st : Super.SState),
       (Super.solve R Z clock cr w st).2.1 = cr) ∧
    (∀ (Z : Zobrist) (clock : Nat → Bool) (fuel : Nat) (cr : Pos) (w : Bool)
        (depth max_depth : Nat) (alpha beta : Int) (st : Super.SState),
       (Super.solve_serial_engine R Z clock fuel cr w depth max_depth alpha beta st).pos
         = cr) ∧
    (∀ (flag : Bool) (fuel : Nat) (cr : Pos) (alpha beta : Int),
       (Super.quiesce R flag fuel cr alpha beta).2 = cr) ∧
    (∀ (clock : Nat → Bool) (cr : Pos) (w : Bool) (st : Prune.PState),
       (Prune.solve R clock cr w st).2.1 = cr) ∧
    (∀ (clock : Nat → Bool) (fuel : Nat) (cr : Pos) (w : Bool)
        (depth max_depth : Nat) (alpha beta : Int) (st : Prune.PState),
       (Prune.solve_serial_engine R clock fuel cr w depth max_depth alpha beta st).pos
         = cr) ∧
    (∀ (cr : Pos) (alpha beta : Int), (Prune.quiesce R cr alpha beta).2 = cr) :=
  ⟨fun Z clock cr w st => super_solve_pos R pop_push Z clock cr w st,
   fun Z clock fuel cr w depth max_depth alpha beta st =>
     super_sse_pos R pop_push Z clock fuel cr w depth max_depth alpha beta st,
   fun flag fuel cr alpha beta => super_quiesce_pos R pop_push flag fuel cr alpha beta,
   fun clock cr w st => prune_solve_pos R pop_push clock cr w st,
   fun clock fuel cr w depth max_depth alpha beta st =>
     prune_sse_pos R pop_push clock fuel cr w depth max_depth alpha beta st,
   fun cr alpha beta => rfl⟩

/-- C3 witness: with identity push/pop, both solvers hand back the empty board
unchanged. -/
theorem c3_push_pop_balance_witness :
    (Super.solve R0 Z0 clockNever emptyPos true st0).2.1 = emptyPos ∧
    (Prune.solve R0 clockNever emptyPos true pst0).2.1 = emptyPos :=
  ⟨(c3_push_pop_balance R0 (fun p m => rfl)).1 Z0 clockNever emptyPos true st0,
   (c3_push_pop_balance R0 (fun p m => rfl)).2.2.2.1 clockNever emptyPos true pst0⟩

end Engine

namespace Engine

/-- C4: the deepening loop of super solve (a) stops at once when the flag is
already set, leaving the provisional answer untouched; (b) discards an
iteration during which the flag becomes set, leaving the provisional answer
untouched; (c) adopts the move written by an iteration that completes with the
flag clear and deepens; (d) solve returns the provisional answer when some
iteration completed and otherwise falls back to the first legal move, or the
invalid (default-constructed, modelled none) move when there are no legal
moves; (e) in particular, when the very first wall-clock check fires, solve
returns the first legal move or the invalid move, raising no error. -/
theorem c4_solve_fallback_and_discard :
    (∀ (R : Rules) (Z : Zobrist) (clock : Nat → Bool) (w : Bool) (iters d : Nat)
        (best : Option Move) (found : Bool) (st : Super.SState) (pos : Pos),
      st.flag = true →
      Super.solveLoop R Z clock w iters d best found st pos = (best, found, st, pos)) ∧
    (∀ (R : Rules) (Z : Zobrist) (clock : Nat → Bool) (w : Bool) (iters d : Nat)
        (best : Option Move) (found : Bool) (st : Super.SState) (pos : Pos),
      st.flag = false →
      (Super.solve_serial_engine R Z clock (d + 1) pos w 0 d (-INF_SCORE) INF_SCORE
        st).st.flag = true →
      Super.solveLoop R Z clock w (iters + 1) d best found st pos =
        (best, found,
         (Super.solve_serial_engine R Z clock (d + 1) pos w 0 d (-INF_SCORE) INF_SCORE st).st,
         (Super.solve_serial_engine R Z clock (d + 1) pos w 0 d (-INF_SCORE) INF_SCORE
           st).pos)) ∧
    (∀ (R : Rules) (Z : Zobrist) (clock : Nat → Bool) (w : Bool) (iters d : Nat)
        (best : Option Move) (found : Bool) (st : Super.SState) (pos : Pos),
      st.flag = false →
      (Super.solve_serial_engine R Z clock (d + 1) pos w 0 d (-INF_SCORE) INF_SCORE
        st).st.flag = false →
      Super.solveLoop R Z clock w (iters + 1) d best found st pos =
        Super.solveLoop R Z clock w iters (d + 1)
          (Super.solve_serial_engine R Z clock (d + 1) pos w 0 d (-INF_SCORE) INF_SCORE st).out
          true
          (Super.solve_serial_engine R Z clock (d + 1) pos w 0 d (-INF_SCORE) INF_SCORE st).st
          (Super.solve_serial_engine R Z clock (d + 1) pos w 0 d (-INF_SCORE) INF_SCORE
            st).pos) ∧
    (∀ (R : Rules) (Z : Zobrist) (clock : Nat → Bool) (cr : Pos) (w : Bool)
        (st_in : Super.SState),
      ((Super.solveLoop R Z clock w Super.MAX_DEPTH 1 none false ⟨false, 0, st_in.tt⟩
          cr).2.1 = true →
        (Super.solve R Z clock cr w st_in).1 =
          (Super.solveLoop R Z clock w Super.MAX_DEPTH 1 none false ⟨false, 0, st_in.tt⟩
            cr).1) ∧
      ((Super.solveLoop R Z clock w Super.MAX_DEPTH 1 none false ⟨false, 0, st_in.tt⟩
          cr).2.1 = false →
        (Super.solve R Z clock cr w st_in).1 =
          (match R.legalMoves (Super.solveLoop R Z clock w Super.MAX_DEPTH 1 none false
              ⟨false, 0, st_in.tt⟩ cr).2.2.2 with
           | [] => none
           | m :: _ => some m))) ∧
    (∀ (R : Rules) (Z : Zobrist) (clock : Nat → Bool) (cr : Pos) (w : Bool)
        (st_in : Super.SState),
      clock 0 = true →
      (Super.solve R Z clock cr w st_in).1 =
        (match R.legalMoves cr with
         | [] => none
         | m :: _ => some m)) := by
  refine ⟨?_, ?_, ?_, ?_, ?_⟩
  · intro R Z clock w iters d best found st pos hflag
    cases iters
    · rfl
    · simp [Super.solveLoop, hflag]
  · intro R Z clock w iters d best found st pos hflag hfire
    simp only [Super.solveLoop]
    rw [if_neg (by simp [hflag]), if_pos hfire]
  · intro R Z clock w iters d best found st pos hflag hok
    simp only [Super.solveLoop]
    rw [if_neg (by simp [hflag]), if_neg (by simp [hok])]
  · intro R Z clock cr w st_in
    constructor
    · intro hfnd
      simp only [Super.solve]
      rw [if_pos hfnd]
    · intro hfnd
      simp only [Super.solve]
      rw [if_neg (by simp [hfnd])]
      rcases R.legalMoves (Super.solveLoop R Z clock w Super.MAX_DEPTH 1 none false
          ⟨false, 0, st_in.tt⟩ cr).2.2.2 with - | ⟨m, ms⟩
      · rfl
      · rfl
  · intro R Z clock cr w st_in hclk
    have hsse : Super.solve_serial_engine R Z clock (1 + 1) cr w 0 1 (-INF_SCORE) INF_SCORE
        ⟨false, 0, st_in.tt⟩ = ⟨0, cr, ⟨true, 1, st_in.tt⟩, none⟩ := by
      simp [Super.solve_serial_engine, Super.timeCheck, hclk]
    have hloop : Super.solveLoop R Z clock w 8 1 none false ⟨false, 0, st_in.tt⟩ cr =
        (none, false, ⟨true, 1, st_in.tt⟩, cr) := by
      show Super.solveLoop R Z clock w (7 + 1) 1 none false ⟨false, 0, st_in.tt⟩ cr = _
      simp only [Super.solveLoop]
      rw [if_neg (by simp), hsse]
      simp
    simp only [Super.solve, Super.MAX_DEPTH, hloop]
    rcases R.legalMoves cr with - | ⟨m, ms⟩
    · rfl
    · rfl

/-- C4 witness: with a clock that is already over budget, solve returns the
first (and only) legal move of the trivial rules. -/
theorem c4_solve_fallback_and_discard_witness :
    (Super.solve RL Z0 clockAlways emptyPos true st0).1 = some m1 := by
  have h := c4_solve_fallback_and_discard.2.2.2.2 RL Z0 clockAlways emptyPos true st0 rfl
  simpa using h

end Engine
